import Mathlib

/-!
Verification development for the harmonic-analysis core of the MusicalAI
repository (`src/audio_analysis.py`).

The Python code works on a 12×T chroma matrix of floats.  We embed it
shallowly: machine floats are modelled as exact rationals, and a Pearson
correlation value (produced by `np.corrcoef(x, y)[0, 1]`) is represented by
the record `PCorr`, holding the scaled covariance `12·Σxy − Σx·Σy` and the
two scaled variances.  Its real value is `PCorr.val = cov / √(vx·vt)`,
which coincides with the textbook Pearson coefficient (the common scale
factor 1/144 cancels).  All comparisons the program performs on floats are
implemented as boolean functions on `PCorr` and proved to agree with the
real-number comparisons of the denoted values (`sqGtB_iff`, `ltB_iff`,
`eqB_iff`, `gtShiftB_iff`), so the embedding stays executable while the
theorems speak about genuine Pearson correlations.
-/

set_option maxRecDepth 4000

namespace MusicalAI

/-- A 12-bin pitch-class vector (one chroma frame / profile / template). -/
abbrev PCVec := Fin 12 → ℚ

/-- `np.sum(u)` for a 12-bin vector. -/
def vsum (u : PCVec) : ℚ := ∑ p, u p

/-- Dot product of two 12-bin vectors. -/
def dot (u v : PCVec) : ℚ := ∑ p, u p * v p

/-- Scaled covariance `12·Σ u·v − Σu · Σv` (144 × the population covariance
used inside `np.corrcoef`; the scale cancels in every correlation). -/
def scov (u v : PCVec) : ℚ := 12 * dot u v - vsum u * vsum v

/-- Scaled variance (144 × the population variance). -/
def svar (u : PCVec) : ℚ := scov u u

/-- `np.roll(u, i)`: the vector whose entry at `p` is `u[(p − i) mod 12]`. -/
def rollv (u : PCVec) (i : Fin 12) : PCVec := fun p => u (p - i)

/-- Representation of the float produced by `np.corrcoef(x, t)[0, 1]`:
scaled covariance together with the two scaled variances.  The denoted real
number is `cov / √(vx·vt)`; the float is NaN iff a variance vanishes. -/
structure PCorr where
  cov : ℚ
  vx : ℚ
  vt : ℚ
deriving DecidableEq

/-- The correlation record computed from two vectors. -/
def pcorr (u v : PCVec) : PCorr := ⟨scov u v, svar u, svar v⟩

/-- `np.isnan` on the represented correlation: a Pearson coefficient is NaN
exactly when one of the two variances is zero (0/0 in the formula). -/
def PCorr.isNaN (c : PCorr) : Prop := c.vx = 0 ∨ c.vt = 0

instance (c : PCorr) : Decidable c.isNaN := by unfold PCorr.isNaN; infer_instance

/-- A representation is valid when both variances are positive; every
non-NaN correlation the program compares satisfies this. -/
def PCorr.valid (c : PCorr) : Prop := 0 < c.vx ∧ 0 < c.vt

/-- The real number denoted by a `PCorr` (the actual Pearson coefficient). -/
noncomputable def PCorr.val (c : PCorr) : ℝ :=
  (c.cov : ℝ) / Real.sqrt ((c.vx : ℝ) * (c.vt : ℝ))

/-- A rational constant `q` (e.g. the initial best score −1, or the 0.0 that
replaces a NaN correlation) as a `PCorr`: it denotes exactly `q`. -/
def PCorr.ofRat (q : ℚ) : PCorr := ⟨q, 1, 1⟩

@[simp] theorem PCorr.ofRat_val (q : ℚ) : (PCorr.ofRat q).val = (q : ℝ) := by
  simp [PCorr.val, PCorr.ofRat]

theorem PCorr.ofRat_valid (q : ℚ) : (PCorr.ofRat q).valid := by
  constructor <;> norm_num [PCorr.ofRat]

/-- Decide `L < m·√u` (for `0 ≤ u`) by sign analysis and squaring. -/
def sqGtB (m u L : ℚ) : Bool :=
  if 0 ≤ L then decide (0 < m) && decide (L * L < m * m * u)
  else decide (0 ≤ m) || decide (m * m * u < L * L)

/-- Decide `m·√u < L` by flipping signs. -/
def sqLtB (m u L : ℚ) : Bool := sqGtB (-m) u (-L)

/-- Decide `m·√u = L` (for `0 < u`). -/
def sqEqB (m u L : ℚ) : Bool :=
  decide (m * m * u ≤ L * L) && decide (L * L ≤ m * m * u) &&
    decide ((0 ≤ m) ↔ (0 ≤ L))

theorem sqGtB_iff {m u L : ℚ} (hu : 0 ≤ u) :
    sqGtB m u L = true ↔ (L : ℝ) < (m : ℝ) * Real.sqrt (u : ℚ) := by
  have hus : (0:ℝ) ≤ (u : ℝ) := by exact_mod_cast hu
  have hsq : Real.sqrt (u:ℝ) ^ 2 = (u:ℝ) := Real.sq_sqrt hus
  unfold sqGtB
  by_cases hL : 0 ≤ L
  · simp only [hL, if_pos, Bool.and_eq_true, decide_eq_true_eq]
    constructor
    · rintro ⟨hm, hlt⟩
      have hm' : (0:ℝ) < (m:ℝ) := by exact_mod_cast hm
      have hltR : (L:ℝ) * (L:ℝ) < (m:ℝ) * (m:ℝ) * (u:ℝ) := by exact_mod_cast hlt
      have h2 : ((L:ℝ)) ^ 2 < ((m:ℝ) * Real.sqrt (u:ℝ)) ^ 2 := by
        rw [mul_pow, hsq]
        nlinarith [hltR]
      have hL' : (0:ℝ) ≤ (L:ℝ) := by exact_mod_cast hL
      nlinarith [Real.sqrt_nonneg (u:ℝ), mul_nonneg hm'.le (Real.sqrt_nonneg (u:ℝ))]
    · intro h
      have hL' : (0:ℝ) ≤ (L:ℝ) := by exact_mod_cast hL
      have hpos : (0:ℝ) < (m:ℝ) * Real.sqrt (u:ℝ) := lt_of_le_of_lt hL' h
      have hm' : (0:ℝ) < (m:ℝ) := by
        rcases lt_trichotomy (m:ℝ) 0 with hneg | hzero | hpos'
        · exfalso
          have : (m:ℝ) * Real.sqrt (u:ℝ) ≤ 0 :=
            mul_nonpos_of_nonpos_of_nonneg hneg.le (Real.sqrt_nonneg _)
          linarith
        · exfalso; rw [hzero] at hpos; simp at hpos
        · exact hpos'
      refine ⟨by exact_mod_cast hm', ?_⟩
      have h2 : ((L:ℝ)) ^ 2 < ((m:ℝ) * Real.sqrt (u:ℝ)) ^ 2 := by
        nlinarith
      rw [mul_pow, hsq] at h2
      have h3 : (L:ℝ) * (L:ℝ) < (m:ℝ) * (m:ℝ) * (u:ℝ) := by nlinarith [h2]
      exact_mod_cast h3
  · have hL' : (L:ℝ) < 0 := by
      have : L < 0 := lt_of_not_le hL
      exact_mod_cast this
    simp only [hL, if_neg, not_false_iff, Bool.or_eq_true, decide_eq_true_eq]
    constructor
    · rintro (hm | hlt)
      · have hm' : (0:ℝ) ≤ (m:ℝ) := by exact_mod_cast hm
        exact lt_of_lt_of_le hL' (mul_nonneg hm' (Real.sqrt_nonneg _))
      · by_cases hm : 0 ≤ m
        · have hm' : (0:ℝ) ≤ (m:ℝ) := by exact_mod_cast hm
          exact lt_of_lt_of_le hL' (mul_nonneg hm' (Real.sqrt_nonneg _))
        · have hm' : (m:ℝ) < 0 := by
            have : m < 0 := lt_of_not_le hm
            exact_mod_cast this
          have hltR : (m:ℝ) * (m:ℝ) * (u:ℝ) < (L:ℝ) * (L:ℝ) := by exact_mod_cast hlt
          have h2 : ((m:ℝ) * Real.sqrt (u:ℝ)) ^ 2 < ((L:ℝ)) ^ 2 := by
            rw [mul_pow, hsq]
            nlinarith [hltR]
          nlinarith [mul_nonpos_of_nonpos_of_nonneg hm'.le (Real.sqrt_nonneg (u:ℝ))]
    · intro h
      by_cases hm : 0 ≤ m
      · exact Or.inl hm
      · refine Or.inr ?_
        have hm' : (m:ℝ) < 0 := by
          have : m < 0 := lt_of_not_le hm
          exact_mod_cast this
        have hml : (m:ℝ) * Real.sqrt (u:ℝ) ≤ 0 :=
          mul_nonpos_of_nonpos_of_nonneg hm'.le (Real.sqrt_nonneg _)
        have h2 : ((m:ℝ) * Real.sqrt (u:ℝ)) ^ 2 < ((L:ℝ)) ^ 2 := by
          nlinarith
        rw [mul_pow, hsq] at h2
        have h3 : (m:ℝ) * (m:ℝ) * (u:ℝ) < (L:ℝ) * (L:ℝ) := by nlinarith [h2]
        exact_mod_cast h3

theorem sqLtB_iff {m u L : ℚ} (hu : 0 ≤ u) :
    sqLtB m u L = true ↔ (m : ℝ) * Real.sqrt (u : ℚ) < (L : ℝ) := by
  unfold sqLtB
  rw [sqGtB_iff hu]
  push_cast
  constructor <;> intro h <;> linarith

theorem sqEqB_iff {m u L : ℚ} (hu : 0 < u) :
    sqEqB m u L = true ↔ (m : ℝ) * Real.sqrt (u : ℚ) = (L : ℝ) := by
  have hus : (0:ℝ) < (u : ℝ) := by exact_mod_cast hu
  have hsq : Real.sqrt (u:ℝ) ^ 2 = (u:ℝ) := Real.sq_sqrt hus.le
  have hsp : 0 < Real.sqrt (u:ℝ) := Real.sqrt_pos.mpr hus
  unfold sqEqB
  simp only [Bool.and_eq_true, decide_eq_true_eq]
  constructor
  · rintro ⟨⟨hle1, hle2⟩, hsgn⟩
    have hsqe : m * m * u = L * L := le_antisymm hle1 hle2
    have hsqeR : (m:ℝ) * (m:ℝ) * (u:ℝ) = (L:ℝ) * (L:ℝ) := by exact_mod_cast hsqe
    have h2 : ((m:ℝ) * Real.sqrt (u:ℝ)) ^ 2 = ((L:ℝ)) ^ 2 := by
      rw [mul_pow, hsq]
      nlinarith [hsqeR]
    have habs := sq_eq_sq_iff_abs_eq_abs ((m:ℝ) * Real.sqrt (u:ℝ)) (L:ℝ) |>.mp h2
    by_cases hm : 0 ≤ m
    · have hL : 0 ≤ L := hsgn.mp hm
      have hm' : (0:ℝ) ≤ (m:ℝ) := by exact_mod_cast hm
      have hL' : (0:ℝ) ≤ (L:ℝ) := by exact_mod_cast hL
      rwa [abs_of_nonneg (mul_nonneg hm' hsp.le), abs_of_nonneg hL'] at habs
    · have hL : ¬ 0 ≤ L := fun h => hm (hsgn.mpr h)
      have hm' : (m:ℝ) < 0 := by exact_mod_cast lt_of_not_le hm
      have hL' : (L:ℝ) < 0 := by exact_mod_cast lt_of_not_le hL
      have := habs
      rw [abs_of_nonpos (mul_nonpos_of_nonpos_of_nonneg hm'.le hsp.le),
        abs_of_nonpos hL'.le] at this
      linarith
  · intro h
    have h2 : ((m:ℝ) * Real.sqrt (u:ℝ)) ^ 2 = ((L:ℝ)) ^ 2 := by rw [h]
    rw [mul_pow, hsq] at h2
    have h3 : (m:ℝ) * (m:ℝ) * (u:ℝ) = (L:ℝ) * (L:ℝ) := by nlinarith [h2]
    have h4 : m * m * u = L * L := by exact_mod_cast h3
    constructor
    · exact ⟨le_of_eq h4, le_of_eq h4.symm⟩
    · constructor
      · intro hm
        have hm' : (0:ℝ) ≤ (m:ℝ) := by exact_mod_cast hm
        have : (0:ℝ) ≤ (L:ℝ) := h ▸ mul_nonneg hm' hsp.le
        exact_mod_cast this
      · intro hL
        have hL' : (0:ℝ) ≤ (L:ℝ) := by exact_mod_cast hL
        have hml : (0:ℝ) ≤ (m:ℝ) * Real.sqrt (u:ℝ) := h ▸ hL'
        have : (0:ℝ) ≤ (m:ℝ) := by
          by_contra hneg
          push_neg at hneg
          nlinarith
        exact_mod_cast this

/-- Decide the float comparison `c < d` on two represented correlations.
`c.val < d.val ⟺ cov_c·√Dd < cov_d·√Dc ⟺ cov_c·Dd < cov_d·√(Dc·Dd)`. -/
def PCorr.ltB (c d : PCorr) : Bool :=
  sqGtB d.cov (c.vx * c.vt * (d.vx * d.vt)) (c.cov * (d.vx * d.vt))

/-- Decide the float equality `c == d` on two represented correlations. -/
def PCorr.eqB (c d : PCorr) : Bool :=
  sqEqB d.cov (c.vx * c.vt * (d.vx * d.vt)) (c.cov * (d.vx * d.vt))

theorem PCorr.sqrtD_pos {c : PCorr} (hc : c.valid) :
    0 < Real.sqrt ((c.vx : ℝ) * (c.vt : ℝ)) := by
  apply Real.sqrt_pos.mpr
  have h1 : (0:ℝ) < (c.vx : ℝ) := by exact_mod_cast hc.1
  have h2 : (0:ℝ) < (c.vt : ℝ) := by exact_mod_cast hc.2
  positivity

theorem PCorr.ltB_iff {c d : PCorr} (hc : c.valid) (hd : d.valid) :
    c.ltB d = true ↔ c.val < d.val := by
  have hDc : (0:ℝ) < (c.vx : ℝ) * (c.vt : ℝ) := by
    have h1 : (0:ℝ) < (c.vx : ℝ) := by exact_mod_cast hc.1
    have h2 : (0:ℝ) < (c.vt : ℝ) := by exact_mod_cast hc.2
    positivity
  have hDd : (0:ℝ) < (d.vx : ℝ) * (d.vt : ℝ) := by
    have h1 : (0:ℝ) < (d.vx : ℝ) := by exact_mod_cast hd.1
    have h2 : (0:ℝ) < (d.vt : ℝ) := by exact_mod_cast hd.2
    positivity
  have hsc := PCorr.sqrtD_pos hc
  have hsd := PCorr.sqrtD_pos hd
  have hu : (0:ℚ) ≤ c.vx * c.vt * (d.vx * d.vt) := by
    have := mul_pos (mul_pos hc.1 hc.2) (mul_pos hd.1 hd.2)
    exact this.le
  rw [PCorr.ltB, sqGtB_iff hu, PCorr.val, PCorr.val, div_lt_div_iff₀ hsc hsd]
  have hsqmul : Real.sqrt (((c.vx * c.vt * (d.vx * d.vt) : ℚ) : ℝ)) =
      Real.sqrt ((c.vx:ℝ) * c.vt) * Real.sqrt ((d.vx:ℝ) * d.vt) := by
    push_cast
    rw [← Real.sqrt_mul (le_of_lt hDc)]
  rw [hsqmul]
  push_cast
  rw [show (c.cov:ℝ) * ((d.vx:ℝ) * (d.vt:ℝ)) =
      (c.cov:ℝ) * Real.sqrt ((d.vx:ℝ) * d.vt) * Real.sqrt ((d.vx:ℝ) * d.vt) by
    rw [mul_assoc, Real.mul_self_sqrt hDd.le]]
  rw [show (d.cov:ℝ) * (Real.sqrt ((c.vx:ℝ) * c.vt) * Real.sqrt ((d.vx:ℝ) * d.vt)) =
      (d.cov:ℝ) * Real.sqrt ((c.vx:ℝ) * c.vt) * Real.sqrt ((d.vx:ℝ) * d.vt) by ring]
  exact mul_lt_mul_right hsd

theorem PCorr.eqB_iff {c d : PCorr} (hc : c.valid) (hd : d.valid) :
    c.eqB d = true ↔ c.val = d.val := by
  have hDc : (0:ℝ) < (c.vx : ℝ) * (c.vt : ℝ) := by
    have h1 : (0:ℝ) < (c.vx : ℝ) := by exact_mod_cast hc.1
    have h2 : (0:ℝ) < (c.vt : ℝ) := by exact_mod_cast hc.2
    positivity
  have hDd : (0:ℝ) < (d.vx : ℝ) * (d.vt : ℝ) := by
    have h1 : (0:ℝ) < (d.vx : ℝ) := by exact_mod_cast hd.1
    have h2 : (0:ℝ) < (d.vt : ℝ) := by exact_mod_cast hd.2
    positivity
  have hsc := PCorr.sqrtD_pos hc
  have hsd := PCorr.sqrtD_pos hd
  have hu : (0:ℚ) < c.vx * c.vt * (d.vx * d.vt) :=
    mul_pos (mul_pos hc.1 hc.2) (mul_pos hd.1 hd.2)
  rw [PCorr.eqB, sqEqB_iff hu, PCorr.val, PCorr.val,
    div_eq_div_iff (ne_of_gt hsc) (ne_of_gt hsd)]
  have hsqmul : Real.sqrt (((c.vx * c.vt * (d.vx * d.vt) : ℚ) : ℝ)) =
      Real.sqrt ((c.vx:ℝ) * c.vt) * Real.sqrt ((d.vx:ℝ) * d.vt) := by
    push_cast
    rw [← Real.sqrt_mul (le_of_lt hDc)]
  rw [hsqmul]
  push_cast
  rw [show (c.cov:ℝ) * ((d.vx:ℝ) * (d.vt:ℝ)) =
      (c.cov:ℝ) * Real.sqrt ((d.vx:ℝ) * d.vt) * Real.sqrt ((d.vx:ℝ) * d.vt) by
    rw [mul_assoc, Real.mul_self_sqrt hDd.le]]
  rw [show (d.cov:ℝ) * (Real.sqrt ((c.vx:ℝ) * c.vt) * Real.sqrt ((d.vx:ℝ) * d.vt)) =
      (d.cov:ℝ) * Real.sqrt ((c.vx:ℝ) * c.vt) * Real.sqrt ((d.vx:ℝ) * d.vt) by ring]
  constructor
  · intro h
    exact (mul_left_inj' (ne_of_gt hsd)).mp h.symm
  · intro h
    exact congrArg (· * Real.sqrt ((d.vx:ℝ) * d.vt)) h.symm

/-- The sign of a represented correlation is the sign of its covariance. -/
theorem PCorr.val_nonneg_iff {c : PCorr} (hc : c.valid) : 0 ≤ c.val ↔ 0 ≤ c.cov := by
  have hs := PCorr.sqrtD_pos hc
  rw [PCorr.val]
  rw [div_nonneg_iff]
  constructor
  · rintro (⟨h, _⟩ | ⟨_, h2⟩)
    · exact_mod_cast h
    · exact absurd h2 (not_le.mpr hs)
  · intro h
    exact Or.inl ⟨by exact_mod_cast h, hs.le⟩

theorem PCorr.val_neg_of_cov_neg {c : PCorr} (hc : c.valid) (h : c.cov < 0) :
    c.val < 0 := by
  have := (PCorr.val_nonneg_iff hc).not
  simp only [not_le] at this
  exact this.mpr h

/-- A self-correlation with positive variance denotes exactly 1. -/
theorem PCorr.val_self {v : ℚ} (hv : 0 < v) : (PCorr.mk v v v).val = 1 := by
  have hv' : (0:ℝ) < (v:ℝ) := by exact_mod_cast hv
  rw [PCorr.val]
  simp only
  rw [show ((v:ℝ) * (v:ℝ)) = (v:ℝ) ^ 2 by ring, Real.sqrt_sq hv'.le,
    div_self (ne_of_gt hv')]

/-- Scaled variances are nonnegative: `(Σu)² ≤ 12·Σu²` (Cauchy–Schwarz). -/
theorem svar_nonneg (u : PCVec) : 0 ≤ svar u := by
  have h := sq_sum_le_card_mul_sum_sq (s := (Finset.univ : Finset (Fin 12))) (f := u)
  simp only [Finset.card_univ, Fintype.card_fin] at h
  have : (vsum u) ^ 2 ≤ 12 * dot u u := by
    rw [vsum, dot]
    calc (∑ p, u p) ^ 2 ≤ 12 * ∑ p, u p ^ 2 := by exact_mod_cast h
      _ = 12 * ∑ p, u p * u p := by simp [sq]
  rw [svar, scov]
  nlinarith [this]

theorem pcorr_valid_of_not_nan {u v : PCVec} (h : ¬ (pcorr u v).isNaN) :
    (pcorr u v).valid := by
  rw [PCorr.isNaN] at h
  push_neg at h
  constructor
  · exact lt_of_le_of_ne (svar_nonneg u) (Ne.symm h.1)
  · exact lt_of_le_of_ne (svar_nonneg v) (Ne.symm h.2)

/-- Every represented correlation can be written `P·√U` with `P, U` rational. -/
theorem PCorr.val_eq_mul_sqrt {c : PCorr} (hc : c.valid) :
    c.val = ((c.cov / (c.vx * c.vt) : ℚ) : ℝ) * Real.sqrt ((c.vx * c.vt : ℚ) : ℝ) := by
  have hcast : ((c.vx * c.vt : ℚ) : ℝ) = (c.vx : ℝ) * (c.vt : ℝ) := by push_cast; ring
  have hD : (0:ℝ) < (c.vx : ℝ) * (c.vt : ℝ) := by
    have h1 : (0:ℝ) < (c.vx : ℝ) := by exact_mod_cast hc.1
    have h2 : (0:ℝ) < (c.vt : ℝ) := by exact_mod_cast hc.2
    positivity
  have hsp : 0 < Real.sqrt ((c.vx : ℝ) * (c.vt : ℝ)) := Real.sqrt_pos.mpr hD
  have hself : Real.sqrt ((c.vx : ℝ) * (c.vt : ℝ)) * Real.sqrt ((c.vx : ℝ) * (c.vt : ℝ))
      = (c.vx : ℝ) * (c.vt : ℝ) := Real.mul_self_sqrt hD.le
  rw [PCorr.val, hcast, div_eq_iff (ne_of_gt hsp), mul_assoc, hself]
  push_cast
  field_simp

/-- Decide the float comparison `b.val + t < a.val` (threshold-shifted
comparison of two correlations), by isolating one radical at a time. -/
def PCorr.gtShiftB (a b : PCorr) (t : ℚ) : Bool :=
  let P := a.cov / (a.vx * a.vt)
  let U := a.vx * a.vt
  let Q := b.cov / (b.vx * b.vt)
  let V := b.vx * b.vt
  let L := P * P * U + t * t - Q * Q * V
  if sqGtB P U t then (if Q ≤ 0 then true else sqLtB (2 * t * P) U L)
  else if sqLtB P U t then (if 0 ≤ Q then false else sqGtB (2 * t * P) U L)
  else decide (Q < 0)

theorem sq_lt_sq_iff_of_pos {x y : ℝ} (hx : 0 < x) (hy : 0 < y) :
    x ^ 2 < y ^ 2 ↔ x < y := by
  constructor
  · intro h; nlinarith
  · intro h; nlinarith

theorem PCorr.gtShiftB_iff {a b : PCorr} (ha : a.valid) (hb : b.valid) (t : ℚ) :
    a.gtShiftB b t = true ↔ b.val + (t : ℝ) < a.val := by
  have hU : (0:ℚ) < a.vx * a.vt := mul_pos ha.1 ha.2
  have hV : (0:ℚ) < b.vx * b.vt := mul_pos hb.1 hb.2
  have hUr : (0:ℝ) < ((a.vx * a.vt : ℚ) : ℝ) := by exact_mod_cast hU
  have hVr : (0:ℝ) < ((b.vx * b.vt : ℚ) : ℝ) := by exact_mod_cast hV
  have hsU : 0 < Real.sqrt ((a.vx * a.vt : ℚ) : ℝ) := Real.sqrt_pos.mpr hUr
  have hsV : 0 < Real.sqrt ((b.vx * b.vt : ℚ) : ℝ) := Real.sqrt_pos.mpr hVr
  have hva := PCorr.val_eq_mul_sqrt ha
  have hvb := PCorr.val_eq_mul_sqrt hb
  set P : ℚ := a.cov / (a.vx * a.vt) with hP
  set Q : ℚ := b.cov / (b.vx * b.vt) with hQ
  have hsqU : Real.sqrt ((a.vx * a.vt : ℚ) : ℝ) ^ 2 = ((a.vx * a.vt : ℚ) : ℝ) :=
    Real.sq_sqrt hUr.le
  have hsqV : Real.sqrt ((b.vx * b.vt : ℚ) : ℝ) ^ 2 = ((b.vx * b.vt : ℚ) : ℝ) :=
    Real.sq_sqrt hVr.le
  have hYsign : (0:ℝ) ≤ b.val ↔ 0 ≤ Q := by
    rw [hvb]
    constructor
    · intro h
      by_contra hneg
      push_neg at hneg
      have : ((Q:ℝ)) < 0 := by exact_mod_cast hneg
      nlinarith
    · intro h
      have : (0:ℝ) ≤ (Q:ℝ) := by exact_mod_cast h
      positivity
  have hX2 : (((P:ℝ)) * Real.sqrt ((a.vx * a.vt : ℚ) : ℝ) - (t:ℝ)) ^ 2 =
      ((P:ℝ)) * (P:ℝ) * ((a.vx * a.vt : ℚ) : ℝ) + (t:ℝ) * (t:ℝ) -
        ((2 * t * P : ℚ) : ℝ) * Real.sqrt ((a.vx * a.vt : ℚ) : ℝ) := by
    have h0 : (((P:ℝ)) * Real.sqrt ((a.vx * a.vt : ℚ) : ℝ) - (t:ℝ)) ^ 2 =
        ((P:ℝ)) * (P:ℝ) *
            (Real.sqrt ((a.vx * a.vt : ℚ) : ℝ) * Real.sqrt ((a.vx * a.vt : ℚ) : ℝ)) +
          (t:ℝ) * (t:ℝ) -
          2 * (t:ℝ) * (P:ℝ) * Real.sqrt ((a.vx * a.vt : ℚ) : ℝ) := by ring
    rw [h0, Real.mul_self_sqrt hUr.le]
    push_cast
    ring
  have hY2 : (b.val) ^ 2 = ((Q:ℝ)) * ((Q:ℝ)) * ((b.vx * b.vt : ℚ) : ℝ) := by
    rw [hvb]
    rw [show (((Q:ℝ)) * Real.sqrt ((b.vx * b.vt : ℚ) : ℝ)) ^ 2 =
      ((Q:ℝ)) * ((Q:ℝ)) *
        (Real.sqrt ((b.vx * b.vt : ℚ) : ℝ) * Real.sqrt ((b.vx * b.vt : ℚ) : ℝ)) by ring]
    rw [Real.mul_self_sqrt hVr.le]
  simp only [PCorr.gtShiftB]
  rw [← hP, ← hQ]
  by_cases h1 : sqGtB P (a.vx * a.vt) t = true
  · have hXpos : (t:ℝ) < a.val := by
      rw [hva]; exact (sqGtB_iff hU.le).mp h1
    rw [if_pos h1]
    by_cases h2 : Q ≤ 0
    · rw [if_pos h2]
      have hYle : b.val ≤ 0 := by
        by_contra hc
        push_neg at hc
        exact absurd (hYsign.mp hc.le) (by
          intro hq
          have : Q = 0 := le_antisymm h2 hq
          rw [hvb, this] at hc
          simp at hc)
      exact iff_of_true rfl (by linarith)
    · rw [if_neg h2]
      push_neg at h2
      have hYpos : (0:ℝ) < b.val := by
        rw [hvb]
        have : (0:ℝ) < (Q:ℝ) := by exact_mod_cast h2
        positivity
      have hXpos' : (0:ℝ) < a.val - (t:ℝ) := by linarith
      have e1 : (a.val - (t:ℝ)) ^ 2 =
          ((P:ℝ)) * ((P:ℝ)) * ((a.vx * a.vt : ℚ) : ℝ) + (t:ℝ) * (t:ℝ) -
            ((2 * t * P : ℚ) : ℝ) * Real.sqrt ((a.vx * a.vt : ℚ) : ℝ) := by
        rw [hva]; exact hX2
      rw [sqLtB_iff hU.le]
      constructor
      · intro h
        have hsq : (b.val) ^ 2 < (a.val - (t:ℝ)) ^ 2 := by
          rw [hY2, e1]
          push_cast at h ⊢
          linarith
        have := (sq_lt_sq_iff_of_pos hYpos hXpos').mp hsq
        linarith
      · intro h
        have hsq : (b.val) ^ 2 < (a.val - (t:ℝ)) ^ 2 :=
          (sq_lt_sq_iff_of_pos hYpos hXpos').mpr (by linarith)
        rw [hY2, e1] at hsq
        push_cast at hsq ⊢
        linarith
  · rw [if_neg h1]
    have hXle : a.val ≤ (t:ℝ) := by
      rw [hva]
      by_contra hc
      push_neg at hc
      exact h1 ((sqGtB_iff hU.le).mpr hc)
    by_cases h2 : sqLtB P (a.vx * a.vt) t = true
    · have hXneg : a.val < (t:ℝ) := by
        rw [hva]; exact (sqLtB_iff hU.le).mp h2
      rw [if_pos h2]
      by_cases h3 : 0 ≤ Q
      · rw [if_pos h3]
        have hYge : (0:ℝ) ≤ b.val := hYsign.mpr h3
        exact iff_of_false (by simp) (not_lt.mpr (by linarith))
      · rw [if_neg h3]
        push_neg at h3
        have hYneg : b.val < 0 := by
          by_contra hc
          push_neg at hc
          exact absurd (hYsign.mp hc) (not_le.mpr h3)
        have hXneg' : (0:ℝ) < (t:ℝ) - a.val := by linarith
        have hYneg' : (0:ℝ) < -b.val := by linarith
        have e1 : ((t:ℝ) - a.val) ^ 2 =
            ((P:ℝ)) * ((P:ℝ)) * ((a.vx * a.vt : ℚ) : ℝ) + (t:ℝ) * (t:ℝ) -
              ((2 * t * P : ℚ) : ℝ) * Real.sqrt ((a.vx * a.vt : ℚ) : ℝ) := by
          rw [hva, show ((t:ℝ) - ((P:ℝ)) * Real.sqrt ((a.vx * a.vt : ℚ) : ℝ)) ^ 2 =
            (((P:ℝ)) * Real.sqrt ((a.vx * a.vt : ℚ) : ℝ) - (t:ℝ)) ^ 2 by ring]
          exact hX2
        have e2 : (-b.val) ^ 2 = ((Q:ℝ)) * ((Q:ℝ)) * ((b.vx * b.vt : ℚ) : ℝ) := by
          rw [show (-b.val) ^ 2 = b.val ^ 2 by ring]; exact hY2
        rw [sqGtB_iff hU.le]
        constructor
        · intro h
          have hsq : ((t:ℝ) - a.val) ^ 2 < (-b.val) ^ 2 := by
            rw [e1, e2]
            push_cast at h ⊢
            linarith
          have := (sq_lt_sq_iff_of_pos hXneg' hYneg').mp hsq
          linarith
        · intro h
          have hsq : ((t:ℝ) - a.val) ^ 2 < (-b.val) ^ 2 :=
            (sq_lt_sq_iff_of_pos hXneg' hYneg').mpr (by linarith)
          rw [e1, e2] at hsq
          push_cast at hsq ⊢
          linarith
    · rw [if_neg h2]
      have hXge : (t:ℝ) ≤ a.val := by
        rw [hva]
        by_contra hc
        push_neg at hc
        exact h2 ((sqLtB_iff hU.le).mpr hc)
      have hXeq : a.val = (t:ℝ) := le_antisymm hXle hXge
      simp only [decide_eq_true_eq]
      constructor
      · intro h
        have hYneg : b.val < 0 := by
          by_contra hc
          push_neg at hc
          exact absurd (hYsign.mp hc) (not_le.mpr h)
        linarith
      · intro h
        by_contra hc
        push_neg at hc
        have := hYsign.mpr hc
        linarith

/-- Decide the float comparison `|a.val − b.val| > t`. -/
def PCorr.absDiffGtB (a b : PCorr) (t : ℚ) : Bool :=
  a.gtShiftB b t || b.gtShiftB a t

theorem PCorr.absDiffGtB_iff {a b : PCorr} (ha : a.valid) (hb : b.valid) (t : ℚ) :
    a.absDiffGtB b t = true ↔ (t : ℝ) < |a.val - b.val| := by
  rw [PCorr.absDiffGtB, Bool.or_eq_true, PCorr.gtShiftB_iff ha hb,
    PCorr.gtShiftB_iff hb ha]
  constructor
  · rintro (h | h)
    · exact lt_of_lt_of_le (by linarith) (le_abs_self _)
    · calc (t:ℝ) < b.val - a.val := by linarith
        _ ≤ |b.val - a.val| := le_abs_self _
        _ = |a.val - b.val| := abs_sub_comm _ _
  · intro h
    rcases le_total a.val b.val with h1 | h1
    · right
      rw [abs_of_nonpos (by linarith)] at h
      linarith
    · left
      rw [abs_of_nonneg (by linarith)] at h
      linarith

/-! ### Constants of `AudioAnalyzer.__init__` -/

/-- `self.note_names`. -/
def note_names : Fin 12 → String := fun i => match i with
  | 0 => "C" | 1 => "C#" | 2 => "D" | 3 => "D#" | 4 => "E" | 5 => "F"
  | 6 => "F#" | 7 => "G" | 8 => "G#" | 9 => "A" | 10 => "A#" | 11 => "B"

/-- `self.major_profile` (Krumhansl–Schmuckler major key profile). -/
def major_profile : PCVec := fun i => match i with
  | 0 => 635/100 | 1 => 223/100 | 2 => 348/100 | 3 => 233/100
  | 4 => 438/100 | 5 => 409/100 | 6 => 252/100 | 7 => 519/100
  | 8 => 239/100 | 9 => 366/100 | 10 => 229/100 | 11 => 288/100

/-- `self.minor_profile` (Krumhansl–Schmuckler minor key profile). -/
def minor_profile : PCVec := fun i => match i with
  | 0 => 633/100 | 1 => 268/100 | 2 => 352/100 | 3 => 538/100
  | 4 => 260/100 | 5 => 353/100 | 6 => 254/100 | 7 => 475/100
  | 8 => 398/100 | 9 => 269/100 | 10 => 334/100 | 11 => 317/100

/-- One chord template as the 12-bin weight vector rooted at C. -/
def tpl (l : List ℚ) : PCVec := fun i => (l.getD i 0)

/-- `self.chord_templates`, in Python dict insertion order. -/
def chord_templates : List (String × PCVec) :=
  [("major", tpl [1, 0, 0, 0, 8/10, 0, 0, 9/10, 0, 0, 0, 0]),
   ("minor", tpl [1, 0, 0, 8/10, 0, 0, 0, 9/10, 0, 0, 0, 0]),
   ("dim",   tpl [1, 0, 0, 8/10, 0, 0, 7/10, 0, 0, 0, 0, 0]),
   ("aug",   tpl [1, 0, 0, 0, 8/10, 0, 0, 0, 7/10, 0, 0, 0]),
   ("sus2",  tpl [1, 0, 7/10, 0, 0, 0, 0, 9/10, 0, 0, 0, 0]),
   ("sus4",  tpl [1, 0, 0, 0, 0, 7/10, 0, 9/10, 0, 0, 0, 0]),
   ("maj7",  tpl [1, 0, 0, 0, 8/10, 0, 0, 9/10, 0, 0, 0, 7/10]),
   ("min7",  tpl [1, 0, 0, 8/10, 0, 0, 0, 9/10, 0, 0, 6/10, 0]),
   ("dom7",  tpl [1, 0, 0, 0, 8/10, 0, 0, 9/10, 0, 0, 7/10, 0]),
   ("dim7",  tpl [1, 0, 0, 8/10, 0, 0, 7/10, 0, 0, 6/10, 0, 0]),
   ("maj9",  tpl [1, 0, 6/10, 0, 8/10, 0, 0, 9/10, 0, 0, 0, 7/10]),
   ("min9",  tpl [1, 0, 6/10, 8/10, 0, 0, 0, 9/10, 0, 0, 6/10, 0]),
   ("add9",  tpl [1, 0, 5/10, 0, 8/10, 0, 0, 9/10, 0, 0, 0, 0]),
   ("min6",  tpl [1, 0, 0, 8/10, 0, 0, 0, 9/10, 0, 6/10, 0, 0]),
   ("maj6",  tpl [1, 0, 0, 0, 8/10, 0, 0, 9/10, 0, 6/10, 0, 0])]

/-- The fixed per-pitch-class weights of `calculate_weighted_correlation`. -/
def correlation_weights : PCVec := fun i => match i with
  | 0 => 1 | 1 => 7/10 | 2 => 8/10 | 3 => 9/10 | 4 => 1 | 5 => 8/10
  | 6 => 7/10 | 7 => 1 | 8 => 8/10 | 9 => 8/10 | 10 => 7/10 | 11 => 8/10

/-- `self.min_chord_confidence = 0.65`. -/
def min_chord_confidence : ℚ := 65/100

/-- `self.key_change_threshold = 0.15`. -/
def key_change_threshold : ℚ := 15/100

/-! ### ChromaSmoother: `smooth_chroma`

A 12×T chroma matrix is a function `Fin 12 → ℕ → ℚ`; only columns `< T` are
ever read.  `smooth_chroma` is `scipy.ndimage.uniform_filter1d(chroma,
size=window_size, axis=1)`, whose boundary handling is the scipy default
`mode='reflect'`: out-of-range indices are folded back by reflection about
the edges (pattern `(d c b a | a b c d | d c b a)`, period `2T`), and the
window sum is always divided by the full window size. -/

/-- Index folding of scipy `mode='reflect'` for a length-`T` axis. -/
def reflectIdx (T : ℕ) (j : ℤ) : ℕ :=
  let m := (j % (2 * (T : ℤ))).toNat
  if m < T then m else 2 * T - 1 - m

/-- `smooth_chroma(chroma, window_size)`; the window of size `W` is centred
at `t` with left offset `W / 2` (integer division), as in
`uniform_filter1d` with `origin=0`. -/
def smooth_chroma (T W : ℕ) (chroma : Fin 12 → ℕ → ℚ) : Fin 12 → ℕ → ℚ :=
  fun p t =>
    (∑ k ∈ Finset.range W, chroma p (reflectIdx T ((t : ℤ) + (k : ℤ) - (W / 2 : ℕ)))) / W

theorem reflectIdx_of_inRange {T : ℕ} {j : ℤ} (h0 : 0 ≤ j) (hT : j < (T : ℤ)) :
    reflectIdx T j = j.toNat := by
  have hTpos : 0 < (T : ℤ) := lt_of_le_of_lt h0 hT
  have hmod : j % (2 * (T : ℤ)) = j := Int.emod_eq_of_lt h0 (by omega)
  rw [reflectIdx]
  simp only [hmod]
  rw [if_pos (by omega)]

/-- Stated from the claim's words, for comparison with the code: a boundary
cell is "the mean over only the in-range frames of its window". -/
def claimBoundaryMean (T W : ℕ) (chroma : Fin 12 → ℕ → ℚ) (p : Fin 12) (t : ℕ) : ℚ :=
  let inR := (Finset.range W).filter
    (fun (k : ℕ) => 0 ≤ (t : ℤ) + (k : ℤ) - ((W / 2 : ℕ) : ℤ) ∧
      (t : ℤ) + (k : ℤ) - ((W / 2 : ℕ) : ℤ) < (T : ℤ))
  (∑ k ∈ inR, chroma p (((t : ℤ) + (k : ℤ) - (W / 2 : ℕ)).toNat)) / inR.card

/-- A 12×2 chroma matrix with a single unit of energy at pitch class C,
frame 0 (used to exhibit the reflect-padding boundary behaviour). -/
def chromaStep : Fin 12 → ℕ → ℚ := fun p t => if p = 0 ∧ t = 0 then 1 else 0

/-- C4 (amended): away from the boundary (`h ≤ t` and `t + h < T` for an odd
window `W = 2h+1`) every output cell of `smooth_chroma` is the plain
unweighted arithmetic mean of the `W` time-neighbouring frames of its
pitch-class row; reflection never kicks in there. -/
theorem C4_smooth_chroma_interior_mean (T W h : ℕ) (hW : W = 2 * h + 1)
    (chroma : Fin 12 → ℕ → ℚ) (p : Fin 12) (t : ℕ) (hl : h ≤ t) (hr : t + h < T) :
    smooth_chroma T W chroma p t = (∑ k ∈ Finset.range W, chroma p (t - h + k)) / W := by
  have hdiv : W / 2 = h := by omega
  rw [smooth_chroma, hdiv]
  congr 1
  apply Finset.sum_congr rfl
  intro k hk
  rw [Finset.mem_range] at hk
  have h0 : 0 ≤ (t : ℤ) + (k : ℤ) - ((h : ℕ) : ℤ) := by omega
  have hT : (t : ℤ) + (k : ℤ) - ((h : ℕ) : ℤ) < (T : ℤ) := by omega
  rw [reflectIdx_of_inRange h0 hT]
  congr 1
  omega

/-- Witness for C4's amended theorem at a concrete interior cell. -/
theorem C4_smooth_chroma_interior_mean_witness :
    smooth_chroma 3 3 chromaStep 0 1 =
      (∑ k ∈ Finset.range 3, chromaStep 0 (1 - 1 + k)) / 3 :=
  C4_smooth_chroma_interior_mean 3 3 1 rfl chromaStep 0 1 (by omega) (by omega)

/-- C4 counterexample: at the boundary the claim fails.  With the 12×2
matrix `chromaStep` and window 5, the code (scipy reflect padding, constant
divisor 5) produces `(b+a+a+b+b)/5 = 2/5` at cell (0,0), while the claimed
"mean over only the in-range frames" is `(a+b)/2 = 1/2`; the reflected
padding values do influence the output cell. -/
theorem C4_counterexample :
    smooth_chroma 2 5 chromaStep 0 0 = 2/5 ∧
      claimBoundaryMean 2 5 chromaStep 0 0 = 1/2 ∧ (2/5 : ℚ) ≠ (1/2 : ℚ) := by
  refine ⟨?_, ?_, ?_⟩
  · with_unfolding_all rfl
  · with_unfolding_all rfl
  · norm_num

/-! ### Python string comparison

Python compares strings lexicographically by code points; `strLtB` is that
order on the underlying character lists. -/

def strLtB : List Char → List Char → Bool
  | [], [] => false
  | [], _ :: _ => true
  | _ :: _, [] => false
  | a :: as, b :: bs =>
      if a.toNat < b.toNat then true
      else if b.toNat < a.toNat then false
      else strLtB as bs

theorem strLtB_nil_right : ∀ as, strLtB as [] = false
  | [] => rfl
  | _ :: _ => rfl

theorem strLtB_irrefl : ∀ as, strLtB as as = false
  | [] => rfl
  | a :: as => by
      rw [strLtB, if_neg (lt_irrefl _), if_neg (lt_irrefl _)]
      exact strLtB_irrefl as

theorem strLtB_asymm : ∀ as bs, strLtB as bs = true → strLtB bs as = false
  | [], bs => fun _ => strLtB_nil_right bs
  | _ :: _, [] => by intro h; cases h
  | a :: as, b :: bs => by
      intro h
      rw [strLtB] at h
      rw [strLtB]
      by_cases h1 : a.toNat < b.toNat
      · rw [if_neg (by omega), if_pos h1]
      · rw [if_neg h1] at h
        by_cases h2 : b.toNat < a.toNat
        · rw [if_pos h2] at h; cases h
        · rw [if_neg h2] at h
          rw [if_neg h2, if_neg h1]
          exact strLtB_asymm as bs h

theorem strLtB_trans : ∀ as bs cs, strLtB as bs = true → strLtB bs cs = true →
    strLtB as cs = true
  | [], bs, cs => by
      intro _ h2
      cases cs with
      | nil => rw [strLtB_nil_right] at h2; cases h2
      | cons c cs => rfl
  | _ :: _, [], _ => by intro h1 _; cases h1
  | _ :: _, _ :: _, [] => by
      intro _ h2
      rw [strLtB_nil_right] at h2
      cases h2
  | a :: as, b :: bs, c :: cs => by
      intro h1 h2
      rw [strLtB] at h1 h2 ⊢
      by_cases hab : a.toNat < b.toNat
      · by_cases hbc : b.toNat < c.toNat
        · rw [if_pos (by omega)]
        · rw [if_neg hbc] at h2
          by_cases hcb : c.toNat < b.toNat
          · rw [if_pos hcb] at h2; cases h2
          · rw [if_pos (by omega)]
      · rw [if_neg hab] at h1
        by_cases hba : b.toNat < a.toNat
        · rw [if_pos hba] at h1; cases h1
        · rw [if_neg hba] at h1
          by_cases hbc : b.toNat < c.toNat
          · rw [if_pos (by omega)]
          · rw [if_neg hbc] at h2
            by_cases hcb : c.toNat < b.toNat
            · rw [if_pos hcb] at h2; cases h2
            · rw [if_neg hcb] at h2
              rw [if_neg (by omega), if_neg (by omega)]
              exact strLtB_trans as bs cs h1 h2

theorem strLtB_trichot : ∀ as bs, strLtB as bs = true ∨ strLtB bs as = true ∨ as = bs
  | [], [] => Or.inr (Or.inr rfl)
  | [], _ :: _ => Or.inl rfl
  | _ :: _, [] => Or.inr (Or.inl rfl)
  | a :: as, b :: bs => by
      by_cases h1 : a.toNat < b.toNat
      · exact Or.inl (by rw [strLtB, if_pos h1])
      · by_cases h2 : b.toNat < a.toNat
        · exact Or.inr (Or.inl (by rw [strLtB, if_pos h2]))
        · have hc : a = b := Char.ext (UInt32.ext (by
            simp only [Char.toNat] at h1 h2
            omega))
          rcases strLtB_trichot as bs with h | h | h
          · exact Or.inl (by rw [strLtB, if_neg h1, if_neg h2]; exact h)
          · exact Or.inr (Or.inl (by rw [strLtB, if_neg h2, if_neg h1]; exact h))
          · exact Or.inr (Or.inr (by rw [hc, h]))

/-! ### KeyEstimator: `detect_key_krumhansl_schmuckler_enhanced` -/

/-- `np.linspace(0.8, 1.2, n)[t]` (the temporal weighting ramp). -/
def linWeight (n t : ℕ) : ℚ :=
  if n = 1 then 4/5 else 4/5 + (t : ℚ) * (2/5) / ((n : ℚ) - 1)

/-- The weighted mean chroma profile `np.mean(chroma * weights, axis=1)`
over the first `T` columns. -/
def chroma_mean (T : ℕ) (chroma : Fin 12 → ℕ → ℚ) : PCVec :=
  fun p => (∑ t ∈ Finset.range T, chroma p t * linWeight T t) / T

/-- The profile after the guarded normalisation
(`if np.sum(chroma_mean) > 0: chroma_mean /= np.sum(chroma_mean)`). -/
def normProfile (T : ℕ) (chroma : Fin 12 → ℕ → ℚ) : PCVec :=
  let cm := chroma_mean T chroma
  if 0 < vsum cm then (fun p => cm p / vsum cm) else cm

/-- The correlation of profile `x` against the sum-normalised rotation of a
key template to root `i`. -/
def keyCand1 (x : PCVec) (prof : PCVec) (i : Fin 12) : PCorr :=
  pcorr x (fun p => rollv prof i p / vsum (rollv prof i))

/-- The key name string the Python code builds for root `r`; `m = true`
is major (`"maior"`), `m = false` minor (`"menor"`). -/
def keyName (r : Fin 12) (m : Bool) : String :=
  note_names r ++ (if m then " maior" else " menor")

/-- The profile used for mode `m`. -/
def profOf (m : Bool) : PCVec := if m then major_profile else minor_profile

/-- A sortable `(correlation, key name)` entry. -/
abbrev KEntry := PCorr × String

/-- The candidate entries contributed by root `i`: major first, then minor,
each appended only when its correlation is not NaN. -/
def keyCands (x : PCVec) (i : Fin 12) : List KEntry :=
  (if (keyCand1 x major_profile i).isNaN then []
    else [(keyCand1 x major_profile i, keyName i true)]) ++
  (if (keyCand1 x minor_profile i).isNaN then []
    else [(keyCand1 x minor_profile i, keyName i false)])

/-- The full `correlations` list, in the enumeration order of the source
(ascending root, major before minor). -/
def keyEntries (T : ℕ) (chroma : Fin 12 → ℕ → ℚ) : List KEntry :=
  (List.finRange 12).flatMap (fun i => keyCands (normProfile T chroma) i)

/-- Python `<` on the sorted `(correlation, name)` tuples: floats first,
names only on exact float equality. -/
def kentLtB (a b : KEntry) : Bool :=
  a.1.ltB b.1 || (a.1.eqB b.1 && strLtB a.2.data b.2.data)

/-- One insertion step of a descending insertion sort with respect to
`kentLtB`.  Since all 24 entry names are distinct, the tuple order is total
and *any* correct sort — in particular Python's stable
`list.sort(reverse=True)` — produces the same head element, which is all
`detect_key` uses (`correlations[0]`). -/
def insertDesc (a : KEntry) : List KEntry → List KEntry
  | [] => [a]
  | b :: l => if kentLtB a b then b :: insertDesc a l else a :: b :: l

/-- `correlations.sort(reverse=True)`. -/
def sortDesc (l : List KEntry) : List KEntry := l.foldr insertDesc []

/-- `detect_key_krumhansl_schmuckler_enhanced(chroma)`, on the first `T`
columns.  Returns `none` exactly when the correlation list is empty, in
which case the Python code raises `IndexError` at `correlations[0]`. -/
def detect_key_krumhansl_schmuckler_enhanced (T : ℕ) (chroma : Fin 12 → ℕ → ℚ) :
    Option (String × PCorr) :=
  match sortDesc (keyEntries T chroma) with
  | [] => none
  | e :: _ => some (e.2, e.1)

/-! ### Order facts about the tuple comparison and the sort -/

/-- The semantic (real-number) weak tuple order: `a` is at most `b` when its
correlation value is smaller, or the values coincide and the name is equal
or smaller. -/
def kentLeR (a b : KEntry) : Prop :=
  a.1.val < b.1.val ∨ (a.1.val = b.1.val ∧ (a.2 = b.2 ∨ strLtB a.2.data b.2.data = true))

theorem kentLeR_refl (a : KEntry) : kentLeR a a := Or.inr ⟨rfl, Or.inl rfl⟩

theorem kentLtB_iff {a b : KEntry} (ha : a.1.valid) (hb : b.1.valid) :
    kentLtB a b = true ↔
      (a.1.val < b.1.val ∨ (a.1.val = b.1.val ∧ strLtB a.2.data b.2.data = true)) := by
  rw [kentLtB, Bool.or_eq_true, Bool.and_eq_true, PCorr.ltB_iff ha hb, PCorr.eqB_iff ha hb]

theorem kentLtB_eq_false_iff {a b : KEntry} (ha : a.1.valid) (hb : b.1.valid) :
    kentLtB a b = false ↔ kentLeR b a := by
  rw [← Bool.not_eq_true, kentLtB_iff ha hb, kentLeR]
  constructor
  · intro h
    push_neg at h
    rcases lt_trichotomy b.1.val a.1.val with hv | hv | hv
    · exact Or.inl hv
    · refine Or.inr ⟨hv, ?_⟩
      have hns : strLtB a.2.data b.2.data ≠ true := h.2 hv.symm
      rcases strLtB_trichot a.2.data b.2.data with hs | hs | hs
      · exact absurd hs hns
      · exact Or.inr hs
      · exact Or.inl (String.ext hs).symm
    · exact absurd hv (not_lt.mpr h.1)
  · intro h hcon
    rcases h with h | ⟨hveq, hname⟩
    · rcases hcon with hc | ⟨hceq, _⟩
      · exact absurd hc (not_lt.mpr h.le)
      · exact absurd h (by rw [hceq]; exact lt_irrefl _)
    · rcases hcon with hc | ⟨_, hcs⟩
      · exact absurd hc (by rw [hveq]; exact lt_irrefl _)
      · rcases hname with hname | hname
        · rw [← hname] at hcs
          exact absurd hcs (by rw [strLtB_irrefl]; simp)
        · exact absurd hcs (by simp [strLtB_asymm _ _ hname])

theorem kentLeR_trans {a b c : KEntry} (h1 : kentLeR a b) (h2 : kentLeR b c) :
    kentLeR a c := by
  rcases h1 with h1 | ⟨h1e, h1n⟩
  · rcases h2 with h2 | ⟨h2e, _⟩
    · exact Or.inl (h1.trans h2)
    · exact Or.inl (h2e ▸ h1)
  · rcases h2 with h2 | ⟨h2e, h2n⟩
    · exact Or.inl (h1e ▸ h2)
    · refine Or.inr ⟨h1e.trans h2e, ?_⟩
      rcases h1n with h1n | h1n
      · rcases h2n with h2n | h2n
        · exact Or.inl (h1n.trans h2n)
        · exact Or.inr (h1n ▸ h2n)
      · rcases h2n with h2n | h2n
        · exact Or.inr (h2n ▸ h1n)
        · exact Or.inr (strLtB_trans _ _ _ h1n h2n)

theorem insertDesc_ne_nil (a : KEntry) (l : List KEntry) : insertDesc a l ≠ [] := by
  cases l with
  | nil => simp [insertDesc]
  | cons b l =>
      rw [insertDesc]
      by_cases h : kentLtB a b = true
      · rw [if_pos h]; simp
      · rw [if_neg h]; simp

theorem mem_insertDesc {x a : KEntry} : ∀ {l : List KEntry},
    x ∈ insertDesc a l → x = a ∨ x ∈ l := by
  intro l
  induction l with
  | nil => intro h; simp [insertDesc] at h; exact Or.inl h
  | cons b l ih =>
      rw [insertDesc]
      by_cases h : kentLtB a b = true
      · rw [if_pos h]
        intro hx
        rcases List.mem_cons.mp hx with hx | hx
        · exact Or.inr (List.mem_cons.mpr (Or.inl hx))
        · rcases ih hx with hx | hx
          · exact Or.inl hx
          · exact Or.inr (List.mem_cons.mpr (Or.inr hx))
      · rw [if_neg h]
        intro hx
        rcases List.mem_cons.mp hx with hx | hx
        · exact Or.inl hx
        · exact Or.inr hx

theorem sortDesc_cons (a : KEntry) (l : List KEntry) :
    sortDesc (a :: l) = insertDesc a (sortDesc l) := rfl

theorem mem_sortDesc {x : KEntry} : ∀ {l : List KEntry}, x ∈ sortDesc l → x ∈ l := by
  intro l
  induction l with
  | nil => intro h; exact absurd h (by simp [sortDesc])
  | cons a l ih =>
      intro h
      rw [sortDesc_cons] at h
      rcases mem_insertDesc h with h | h
      · exact List.mem_cons.mpr (Or.inl h)
      · exact List.mem_cons.mpr (Or.inr (ih h))

/-- The head of the descending sort is a maximum of the list with respect to
the semantic tuple order (assuming all entries are valid). -/
theorem sortDesc_head_max : ∀ (l : List KEntry), (∀ e ∈ l, e.1.valid) →
    ∀ h rest, sortDesc l = h :: rest → h ∈ l ∧ ∀ e ∈ l, kentLeR e h := by
  intro l
  induction l with
  | nil => intro _ h rest heq; cases heq
  | cons a l ih =>
      intro hv h rest heq
      rw [sortDesc_cons] at heq
      rcases hsl : sortDesc l with _ | ⟨m, rest0⟩
      · have hl : l = [] := by
          cases l with
          | nil => rfl
          | cons b l2 =>
              rw [sortDesc_cons] at hsl
              exact absurd hsl (insertDesc_ne_nil _ _)
        subst hl
        rw [show sortDesc ([] : List KEntry) = [] from rfl] at heq
        rw [insertDesc] at heq
        cases heq
        exact ⟨List.mem_singleton.mpr rfl, by
          intro e he
          rw [List.mem_singleton] at he
          subst he
          exact kentLeR_refl _⟩
      · have hvl : ∀ e ∈ l, e.1.valid := fun e he => hv e (List.mem_cons.mpr (Or.inr he))
        obtain ⟨hm_mem, hm_max⟩ := ih hvl m rest0 hsl
        have hva : a.1.valid := hv a (List.mem_cons.mpr (Or.inl rfl))
        have hvm : m.1.valid := hvl m hm_mem
        rw [hsl, insertDesc] at heq
        by_cases hc : kentLtB a m = true
        · rw [if_pos hc] at heq
          cases heq
          refine ⟨List.mem_cons.mpr (Or.inr hm_mem), ?_⟩
          intro e he
          rcases List.mem_cons.mp he with he | he
          · subst he
            rcases (kentLtB_iff hva hvm).mp hc with hlt | ⟨heq2, hs⟩
            · exact Or.inl hlt
            · exact Or.inr ⟨heq2, Or.inr hs⟩
          · exact hm_max e he
        · rw [if_neg hc] at heq
          cases heq
          refine ⟨List.mem_cons.mpr (Or.inl rfl), ?_⟩
          intro e he
          rcases List.mem_cons.mp he with he | he
          · subst he; exact kentLeR_refl _
          · have hma : kentLeR m a :=
              (kentLtB_eq_false_iff hva hvm).mp (Bool.not_eq_true _ ▸ eq_false_of_ne_true hc)
            exact kentLeR_trans (hm_max e he) hma

theorem keyEntries_valid (T : ℕ) (chroma : Fin 12 → ℕ → ℚ) :
    ∀ e ∈ keyEntries T chroma, e.1.valid := by
  intro e he
  rw [keyEntries, List.mem_flatMap] at he
  obtain ⟨i, _, hei⟩ := he
  rw [keyCands, List.mem_append] at hei
  rcases hei with h | h
  · by_cases hn : (keyCand1 (normProfile T chroma) major_profile i).isNaN
    · rw [if_pos hn] at h
      cases h
    · rw [if_neg hn] at h
      rw [List.mem_singleton] at h
      subst h
      exact pcorr_valid_of_not_nan hn
  · by_cases hn : (keyCand1 (normProfile T chroma) minor_profile i).isNaN
    · rw [if_pos hn] at h
      cases h
    · rw [if_neg hn] at h
      rw [List.mem_singleton] at h
      subst h
      exact pcorr_valid_of_not_nan hn

/-- What `correlations.sort(reverse=True); correlations[0]` returns: a
member of the correlation list that is maximal for the tuple order. -/
theorem detect_key_head_spec (T : ℕ) (chroma : Fin 12 → ℕ → ℚ) (name : String) (c : PCorr)
    (hsome : detect_key_krumhansl_schmuckler_enhanced T chroma = some (name, c)) :
    (c, name) ∈ keyEntries T chroma ∧ ∀ e ∈ keyEntries T chroma, kentLeR e (c, name) := by
  rw [detect_key_krumhansl_schmuckler_enhanced] at hsome
  rcases heq : sortDesc (keyEntries T chroma) with _ | ⟨h, rest⟩
  · rw [heq] at hsome
    cases hsome
  · rw [heq] at hsome
    injection hsome with hpair
    have hh : h = (c, name) := by
      have h2 : h.2 = name := congrArg Prod.fst hpair
      have h1 : h.1 = c := congrArg Prod.snd hpair
      exact Prod.ext h1 h2
    subst hh
    exact sortDesc_head_max _ (keyEntries_valid T chroma) _ rest heq

/-- C1 (amended): `detect_key_krumhansl_schmuckler_enhanced` returns an
entry of the correlation list attaining the maximum Pearson correlation; but
when several entries tie at the maximum it returns the one whose key-name
string is lexicographically greatest (the reverse tuple sort compares names
descendingly on equal floats), not the first-encountered candidate. -/
theorem C1_detect_key_max_name_tiebreak (T : ℕ) (chroma : Fin 12 → ℕ → ℚ)
    (name : String) (c : PCorr)
    (hsome : detect_key_krumhansl_schmuckler_enhanced T chroma = some (name, c)) :
    (c, name) ∈ keyEntries T chroma ∧
    (∀ e ∈ keyEntries T chroma, e.1.val ≤ c.val) ∧
    (∀ e ∈ keyEntries T chroma, e.1.val = c.val →
      e.2 = name ∨ strLtB e.2.data name.data = true) := by
  obtain ⟨hmem, hmax⟩ := detect_key_head_spec T chroma name c hsome
  refine ⟨hmem, ?_, ?_⟩
  · intro e he
    rcases hmax e he with h | ⟨h, _⟩
    · exact h.le
    · exact h.le
  · intro e he hveq
    rcases hmax e he with h | ⟨_, h⟩
    · exact absurd hveq (ne_of_lt h)
    · exact h

/-- A 12×1 chroma matrix concentrated on pitch class C. -/
def chromaE0 : Fin 12 → ℕ → ℚ := fun p _ => if p = 0 then 1 else 0

/-- A 12×1 chroma matrix equally split between pitch classes C and F#
(6-periodic, so templates at roots `i` and `i+6` correlate identically). -/
def chromaTie : Fin 12 → ℕ → ℚ := fun p _ => if p = 0 ∨ p = 6 then 1 else 0

/-- The all-zero 12×1 chroma matrix. -/
def zeroChroma : Fin 12 → ℕ → ℚ := fun _ _ => 0

/-- `np.roll(chroma, N, axis=0)`: transpose every column up by `N`
semitones. -/
def rollChroma (N : Fin 12) (chroma : Fin 12 → ℕ → ℚ) : Fin 12 → ℕ → ℚ :=
  fun p t => chroma (p - N) t

/-- The 24 correlation entries of `chromaE0`, computed once and for all. -/
def entE0 : List KEntry :=
  [(⟨Rat.mk' 1147 1393, Rat.mk' 11 1, Rat.mk' 36469 277207⟩, "C maior"),
   (⟨Rat.mk' 3145 4451, Rat.mk' 11 1, Rat.mk' 1920851 19811401⟩, "C menor"),
   (⟨Rat.mk' (-241) 1393, Rat.mk' 11 1, Rat.mk' 36469 277207⟩, "C# maior"),
   (⟨Rat.mk' (-647) 4451, Rat.mk' 11 1, Rat.mk' 1920851 19811401⟩, "C# menor"),
   (⟨Rat.mk' (-477) 1393, Rat.mk' 11 1, Rat.mk' 36469 277207⟩, "D maior"),
   (⟨Rat.mk' (-443) 4451, Rat.mk' 11 1, Rat.mk' 1920851 19811401⟩, "D menor"),
   (⟨Rat.mk' 71 1393, Rat.mk' 11 1, Rat.mk' 36469 277207⟩, "D# maior"),
   (⟨Rat.mk' (-1223) 4451, Rat.mk' 11 1, Rat.mk' 1920851 19811401⟩, "D# menor"),
   (⟨Rat.mk' (-437) 1393, Rat.mk' 11 1, Rat.mk' 36469 277207⟩, "E maior"),
   (⟨Rat.mk' 325 4451, Rat.mk' 11 1, Rat.mk' 1920851 19811401⟩, "E menor"),
   (⟨Rat.mk' 683 1393, Rat.mk' 11 1, Rat.mk' 36469 277207⟩, "F maior"),
   (⟨Rat.mk' 1249 4451, Rat.mk' 11 1, Rat.mk' 1920851 19811401⟩, "F menor"),
   (⟨Rat.mk' (-55) 199, Rat.mk' 11 1, Rat.mk' 36469 277207⟩, "F# maior"),
   (⟨Rat.mk' (-1403) 4451, Rat.mk' 11 1, Rat.mk' 1920851 19811401⟩, "F# menor"),
   (⟨Rat.mk' 243 1393, Rat.mk' 11 1, Rat.mk' 36469 277207⟩, "G maior"),
   (⟨Rat.mk' (-215) 4451, Rat.mk' 11 1, Rat.mk' 1920851 19811401⟩, "G menor"),
   (⟨Rat.mk' 359 1393, Rat.mk' 11 1, Rat.mk' 36469 277207⟩, "G# maior"),
   (⟨Rat.mk' (-1331) 4451, Rat.mk' 11 1, Rat.mk' 1920851 19811401⟩, "G# menor"),
   (⟨Rat.mk' (-461) 1393, Rat.mk' 11 1, Rat.mk' 36469 277207⟩, "A maior"),
   (⟨Rat.mk' 2005 4451, Rat.mk' 11 1, Rat.mk' 1920851 19811401⟩, "A menor"),
   (⟨Rat.mk' (-1) 1393, Rat.mk' 11 1, Rat.mk' 36469 277207⟩, "A# maior"),
   (⟨Rat.mk' (-227) 4451, Rat.mk' 11 1, Rat.mk' 1920851 19811401⟩, "A# menor"),
   (⟨Rat.mk' (-501) 1393, Rat.mk' 11 1, Rat.mk' 36469 277207⟩, "B maior"),
   (⟨Rat.mk' (-1235) 4451, Rat.mk' 11 1, Rat.mk' 1920851 19811401⟩, "B menor")]

/-- The 24 correlation entries of `chromaTie`. -/
def entTie : List KEntry :=
  [(⟨Rat.mk' 381 1393, Rat.mk' 5 1, Rat.mk' 36469 277207⟩, "C maior"),
   (⟨Rat.mk' 871 4451, Rat.mk' 5 1, Rat.mk' 1920851 19811401⟩, "C menor"),
   (⟨Rat.mk' 1 1393, Rat.mk' 5 1, Rat.mk' 36469 277207⟩, "C# maior"),
   (⟨Rat.mk' (-431) 4451, Rat.mk' 5 1, Rat.mk' 1920851 19811401⟩, "C# menor"),
   (⟨Rat.mk' (-59) 1393, Rat.mk' 5 1, Rat.mk' 36469 277207⟩, "D maior"),
   (⟨Rat.mk' (-887) 4451, Rat.mk' 5 1, Rat.mk' 1920851 19811401⟩, "D menor"),
   (⟨Rat.mk' (-195) 1393, Rat.mk' 5 1, Rat.mk' 36469 277207⟩, "D# maior"),
   (⟨Rat.mk' 391 4451, Rat.mk' 5 1, Rat.mk' 1920851 19811401⟩, "D# menor"),
   (⟨Rat.mk' (-219) 1393, Rat.mk' 5 1, Rat.mk' 36469 277207⟩, "E maior"),
   (⟨Rat.mk' 49 4451, Rat.mk' 5 1, Rat.mk' 1920851 19811401⟩, "E menor"),
   (⟨Rat.mk' 13 199, Rat.mk' 5 1, Rat.mk' 36469 277207⟩, "F maior"),
   (⟨Rat.mk' 7 4451, Rat.mk' 5 1, Rat.mk' 1920851 19811401⟩, "F menor"),
   (⟨Rat.mk' 381 1393, Rat.mk' 5 1, Rat.mk' 36469 277207⟩, "F# maior"),
   (⟨Rat.mk' 871 4451, Rat.mk' 5 1, Rat.mk' 1920851 19811401⟩, "F# menor"),
   (⟨Rat.mk' 1 1393, Rat.mk' 5 1, Rat.mk' 36469 277207⟩, "G maior"),
   (⟨Rat.mk' (-431) 4451, Rat.mk' 5 1, Rat.mk' 1920851 19811401⟩, "G menor"),
   (⟨Rat.mk' (-59) 1393, Rat.mk' 5 1, Rat.mk' 36469 277207⟩, "G# maior"),
   (⟨Rat.mk' (-887) 4451, Rat.mk' 5 1, Rat.mk' 1920851 19811401⟩, "G# menor"),
   (⟨Rat.mk' (-195) 1393, Rat.mk' 5 1, Rat.mk' 36469 277207⟩, "A maior"),
   (⟨Rat.mk' 391 4451, Rat.mk' 5 1, Rat.mk' 1920851 19811401⟩, "A menor"),
   (⟨Rat.mk' (-219) 1393, Rat.mk' 5 1, Rat.mk' 36469 277207⟩, "A# maior"),
   (⟨Rat.mk' 49 4451, Rat.mk' 5 1, Rat.mk' 1920851 19811401⟩, "A# menor"),
   (⟨Rat.mk' 13 199, Rat.mk' 5 1, Rat.mk' 36469 277207⟩, "B maior"),
   (⟨Rat.mk' 7 4451, Rat.mk' 5 1, Rat.mk' 1920851 19811401⟩, "B menor")]

/-- The 24 correlation entries of `rollChroma 3 chromaTie`. -/
def entTie3 : List KEntry :=
  [(⟨Rat.mk' (-195) 1393, Rat.mk' 5 1, Rat.mk' 36469 277207⟩, "C maior"),
   (⟨Rat.mk' 391 4451, Rat.mk' 5 1, Rat.mk' 1920851 19811401⟩, "C menor"),
   (⟨Rat.mk' (-219) 1393, Rat.mk' 5 1, Rat.mk' 36469 277207⟩, "C# maior"),
   (⟨Rat.mk' 49 4451, Rat.mk' 5 1, Rat.mk' 1920851 19811401⟩, "C# menor"),
   (⟨Rat.mk' 13 199, Rat.mk' 5 1, Rat.mk' 36469 277207⟩, "D maior"),
   (⟨Rat.mk' 7 4451, Rat.mk' 5 1, Rat.mk' 1920851 19811401⟩, "D menor"),
   (⟨Rat.mk' 381 1393, Rat.mk' 5 1, Rat.mk' 36469 277207⟩, "D# maior"),
   (⟨Rat.mk' 871 4451, Rat.mk' 5 1, Rat.mk' 1920851 19811401⟩, "D# menor"),
   (⟨Rat.mk' 1 1393, Rat.mk' 5 1, Rat.mk' 36469 277207⟩, "E maior"),
   (⟨Rat.mk' (-431) 4451, Rat.mk' 5 1, Rat.mk' 1920851 19811401⟩, "E menor"),
   (⟨Rat.mk' (-59) 1393, Rat.mk' 5 1, Rat.mk' 36469 277207⟩, "F maior"),
   (⟨Rat.mk' (-887) 4451, Rat.mk' 5 1, Rat.mk' 1920851 19811401⟩, "F menor"),
   (⟨Rat.mk' (-195) 1393, Rat.mk' 5 1, Rat.mk' 36469 277207⟩, "F# maior"),
   (⟨Rat.mk' 391 4451, Rat.mk' 5 1, Rat.mk' 1920851 19811401⟩, "F# menor"),
   (⟨Rat.mk' (-219) 1393, Rat.mk' 5 1, Rat.mk' 36469 277207⟩, "G maior"),
   (⟨Rat.mk' 49 4451, Rat.mk' 5 1, Rat.mk' 1920851 19811401⟩, "G menor"),
   (⟨Rat.mk' 13 199, Rat.mk' 5 1, Rat.mk' 36469 277207⟩, "G# maior"),
   (⟨Rat.mk' 7 4451, Rat.mk' 5 1, Rat.mk' 1920851 19811401⟩, "G# menor"),
   (⟨Rat.mk' 381 1393, Rat.mk' 5 1, Rat.mk' 36469 277207⟩, "A maior"),
   (⟨Rat.mk' 871 4451, Rat.mk' 5 1, Rat.mk' 1920851 19811401⟩, "A menor"),
   (⟨Rat.mk' 1 1393, Rat.mk' 5 1, Rat.mk' 36469 277207⟩, "A# maior"),
   (⟨Rat.mk' (-431) 4451, Rat.mk' 5 1, Rat.mk' 1920851 19811401⟩, "A# menor"),
   (⟨Rat.mk' (-59) 1393, Rat.mk' 5 1, Rat.mk' 36469 277207⟩, "B maior"),
   (⟨Rat.mk' (-887) 4451, Rat.mk' 5 1, Rat.mk' 1920851 19811401⟩, "B menor")]

/-- The 24 correlation entries of `rollChroma 5 chromaE0`. -/
def entE5 : List KEntry :=
  [(⟨Rat.mk' 243 1393, Rat.mk' 11 1, Rat.mk' 36469 277207⟩, "C maior"),
   (⟨Rat.mk' (-215) 4451, Rat.mk' 11 1, Rat.mk' 1920851 19811401⟩, "C menor"),
   (⟨Rat.mk' 359 1393, Rat.mk' 11 1, Rat.mk' 36469 277207⟩, "C# maior"),
   (⟨Rat.mk' (-1331) 4451, Rat.mk' 11 1, Rat.mk' 1920851 19811401⟩, "C# menor"),
   (⟨Rat.mk' (-461) 1393, Rat.mk' 11 1, Rat.mk' 36469 277207⟩, "D maior"),
   (⟨Rat.mk' 2005 4451, Rat.mk' 11 1, Rat.mk' 1920851 19811401⟩, "D menor"),
   (⟨Rat.mk' (-1) 1393, Rat.mk' 11 1, Rat.mk' 36469 277207⟩, "D# maior"),
   (⟨Rat.mk' (-227) 4451, Rat.mk' 11 1, Rat.mk' 1920851 19811401⟩, "D# menor"),
   (⟨Rat.mk' (-501) 1393, Rat.mk' 11 1, Rat.mk' 36469 277207⟩, "E maior"),
   (⟨Rat.mk' (-1235) 4451, Rat.mk' 11 1, Rat.mk' 1920851 19811401⟩, "E menor"),
   (⟨Rat.mk' 1147 1393, Rat.mk' 11 1, Rat.mk' 36469 277207⟩, "F maior"),
   (⟨Rat.mk' 3145 4451, Rat.mk' 11 1, Rat.mk' 1920851 19811401⟩, "F menor"),
   (⟨Rat.mk' (-241) 1393, Rat.mk' 11 1, Rat.mk' 36469 277207⟩, "F# maior"),
   (⟨Rat.mk' (-647) 4451, Rat.mk' 11 1, Rat.mk' 1920851 19811401⟩, "F# menor"),
   (⟨Rat.mk' (-477) 1393, Rat.mk' 11 1, Rat.mk' 36469 277207⟩, "G maior"),
   (⟨Rat.mk' (-443) 4451, Rat.mk' 11 1, Rat.mk' 1920851 19811401⟩, "G menor"),
   (⟨Rat.mk' 71 1393, Rat.mk' 11 1, Rat.mk' 36469 277207⟩, "G# maior"),
   (⟨Rat.mk' (-1223) 4451, Rat.mk' 11 1, Rat.mk' 1920851 19811401⟩, "G# menor"),
   (⟨Rat.mk' (-437) 1393, Rat.mk' 11 1, Rat.mk' 36469 277207⟩, "A maior"),
   (⟨Rat.mk' 325 4451, Rat.mk' 11 1, Rat.mk' 1920851 19811401⟩, "A menor"),
   (⟨Rat.mk' 683 1393, Rat.mk' 11 1, Rat.mk' 36469 277207⟩, "A# maior"),
   (⟨Rat.mk' 1249 4451, Rat.mk' 11 1, Rat.mk' 1920851 19811401⟩, "A# menor"),
   (⟨Rat.mk' (-55) 199, Rat.mk' 11 1, Rat.mk' 36469 277207⟩, "B maior"),
   (⟨Rat.mk' (-1403) 4451, Rat.mk' 11 1, Rat.mk' 1920851 19811401⟩, "B menor")]


/-- When one entry strictly dominates every other entry of the list under
the tuple comparison, it is the head of the descending sort. -/
theorem sortDesc_head_of_strict_max (l : List KEntry) (hv : ∀ x ∈ l, x.1.valid)
    (e : KEntry) (he : e ∈ l) (hmax : ∀ x ∈ l, x ≠ e → kentLtB x e = true) :
    ∃ rest, sortDesc l = e :: rest := by
  rcases heq : sortDesc l with _ | ⟨h, rest⟩
  · exfalso
    cases l with
    | nil => cases he
    | cons a l2 =>
        rw [sortDesc_cons] at heq
        exact insertDesc_ne_nil _ _ heq
  · obtain ⟨hh_mem, hh_max⟩ := sortDesc_head_max l hv h rest heq
    by_cases hhe : h = e
    · exact ⟨rest, by rw [hhe]⟩
    · exfalso
      have hve : e.1.valid := hv e he
      have hvh : h.1.valid := hv h hh_mem
      have hlt := (kentLtB_iff hvh hve).mp (hmax h hh_mem hhe)
      have hle := hh_max e he
      rcases hlt with hlt | ⟨hveq, hs⟩
      · rcases hle with hle | ⟨hle, _⟩
        · exact absurd hlt (not_lt.mpr hle.le)
        · exact absurd hlt (not_lt.mpr hle.le)
      · rcases hle with hle | ⟨_, hname⟩
        · exact absurd hle (not_lt.mpr hveq.le)
        · rcases hname with hname | hname
          · rw [hname] at hs
            exact absurd hs (by rw [strLtB_irrefl]; simp)
          · exact absurd hs (by simp [strLtB_asymm _ _ hname])

/-- If an entry of the correlation list strictly dominates all other
entries, `detect_key` returns exactly that entry. -/
theorem detect_key_eq_of_strict_max (T : ℕ) (chroma : Fin 12 → ℕ → ℚ) (e : KEntry)
    (he : e ∈ keyEntries T chroma)
    (hmax : ∀ x ∈ keyEntries T chroma, x ≠ e → kentLtB x e = true) :
    detect_key_krumhansl_schmuckler_enhanced T chroma = some (e.2, e.1) := by
  obtain ⟨rest, hrest⟩ :=
    sortDesc_head_of_strict_max _ (keyEntries_valid T chroma) e he hmax
  rw [detect_key_krumhansl_schmuckler_enhanced, hrest]

theorem keyEntries_E0 : keyEntries 1 chromaE0 = entE0 := by with_unfolding_all rfl

theorem keyEntries_Tie : keyEntries 1 chromaTie = entTie := by with_unfolding_all rfl

theorem keyEntries_Tie3 : keyEntries 1 (rollChroma 3 chromaTie) = entTie3 := by
  with_unfolding_all rfl

theorem keyEntries_E5 : keyEntries 1 (rollChroma 5 chromaE0) = entE5 := by
  with_unfolding_all rfl

/-- Witness: on `chromaE0` the detector returns "C maior" with the stated
correlation record, which is maximal over the whole list. -/
theorem C1_detect_key_max_name_tiebreak_witness :
    (((⟨Rat.mk' 1147 1393, Rat.mk' 11 1, Rat.mk' 36469 277207⟩ : PCorr), "C maior") ∈ keyEntries 1 chromaE0) ∧
    (∀ e ∈ keyEntries 1 chromaE0,
      e.1.val ≤ (⟨Rat.mk' 1147 1393, Rat.mk' 11 1, Rat.mk' 36469 277207⟩ : PCorr).val) ∧
    (∀ e ∈ keyEntries 1 chromaE0,
      e.1.val = (⟨Rat.mk' 1147 1393, Rat.mk' 11 1, Rat.mk' 36469 277207⟩ : PCorr).val →
        e.2 = "C maior" ∨ strLtB e.2.data "C maior".data = true) :=
  C1_detect_key_max_name_tiebreak 1 chromaE0 "C maior" ⟨Rat.mk' 1147 1393, Rat.mk' 11 1, Rat.mk' 36469 277207⟩
    (by
      apply detect_key_eq_of_strict_max 1 chromaE0
        ((⟨Rat.mk' 1147 1393, Rat.mk' 11 1, Rat.mk' 36469 277207⟩ : PCorr), "C maior")
      · rw [keyEntries_E0, entE0]
        exact List.mem_cons_self _ _
      · rw [keyEntries_E0]
        intro x hx hne
        rw [entE0] at hx
        fin_cases hx
        · exact absurd rfl hne
        all_goals with_unfolding_all rfl)

/-- Stated from the claim's words, for comparison with the code: scan the
candidates in enumeration order (ascending root, major before minor) and
keep the first one attaining the running maximum, so ties at the maximum
resolve to the first-encountered candidate. -/
def claimFirstEncounteredKey (T : ℕ) (chroma : Fin 12 → ℕ → ℚ) : Option String :=
  ((keyEntries T chroma).find? (fun e =>
      (keyEntries T chroma).all (fun e2 => ! e.1.ltB e2.1))).map Prod.snd

/-- C1 counterexample: on `chromaTie` the correlations of "C maior" and
"F# maior" tie at the maximum; the first-encountered rule demands
"C maior", but the code returns "F# maior" (bigger name string). -/
theorem C1_counterexample :
    (detect_key_krumhansl_schmuckler_enhanced 1 chromaTie).map Prod.fst =
      some "F# maior" ∧
    claimFirstEncounteredKey 1 chromaTie = some "C maior" ∧
    ("F# maior" : String) ≠ "C maior" := by
  refine ⟨?_, ?_, ?_⟩
  · have hdet := detect_key_eq_of_strict_max 1 chromaTie
      ((⟨Rat.mk' 381 1393, Rat.mk' 5 1, Rat.mk' 36469 277207⟩ : PCorr), "F# maior")
      (by
        rw [keyEntries_Tie, entTie]
        repeat
          first
          | exact List.mem_cons_self _ _
          | apply List.mem_cons_of_mem)
      (by
        rw [keyEntries_Tie]
        intro x hx hne
        rw [entTie] at hx
        fin_cases hx
        all_goals
          first
          | exact absurd rfl hne
          | with_unfolding_all rfl)
    rw [hdet]
    rfl
  · unfold claimFirstEncounteredKey
    rw [keyEntries_Tie, entTie]
    rw [List.find?_cons_of_pos _ (by
      apply List.all_eq_true.mpr
      intro x hx
      fin_cases hx
      all_goals with_unfolding_all rfl)]
    rfl
  · decide

/-- C2: on the well-formed all-zero 12×1 chroma matrix every one of the 24
Pearson correlations is NaN, so the filtered list is empty and
`correlations[0]` raises `IndexError` (modelled by `none`) instead of
returning the zero-confidence result the specification demands. -/
theorem C2_all_nan_key_detection_raises :
    keyEntries 1 zeroChroma = [] ∧
    detect_key_krumhansl_schmuckler_enhanced 1 zeroChroma = none := by
  constructor
  · with_unfolding_all rfl
  · with_unfolding_all rfl

/-! ### C6: behaviour of key detection under chromatic transposition -/

theorem vsum_rollv (u : PCVec) (N : Fin 12) : vsum (rollv u N) = vsum u := by
  unfold vsum rollv
  exact Fintype.sum_equiv (Equiv.subRight N) _ _ (fun p => rfl)

theorem dot_rollv (u v : PCVec) (N : Fin 12) :
    dot (rollv u N) (rollv v N) = dot u v := by
  unfold dot rollv
  exact Fintype.sum_equiv (Equiv.subRight N) _ _ (fun p => rfl)

theorem scov_rollv (u v : PCVec) (N : Fin 12) :
    scov (rollv u N) (rollv v N) = scov u v := by
  unfold scov
  rw [dot_rollv, vsum_rollv, vsum_rollv]

theorem pcorr_rollv (u v : PCVec) (N : Fin 12) :
    pcorr (rollv u N) (rollv v N) = pcorr u v := by
  unfold pcorr svar
  rw [scov_rollv, scov_rollv, scov_rollv]

/-- Correlating a rotated profile against the template at root `i` is the
same as correlating the unrotated profile against the template at root
`i − N`. -/
theorem keyCand1_rollv (x prof : PCVec) (N i : Fin 12) :
    keyCand1 (rollv x N) prof i = keyCand1 x prof (i - N) := by
  have harg : ∀ p : Fin 12, p - i = p - N - (i - N) := by intro p; ring
  have hg : (fun p => rollv prof i p / vsum (rollv prof i)) =
      rollv (fun p => rollv prof (i - N) p / vsum (rollv prof (i - N))) N := by
    funext p
    show prof (p - i) / vsum (rollv prof i) =
      prof (p - N - (i - N)) / vsum (rollv prof (i - N))
    rw [vsum_rollv, vsum_rollv, ← harg p]
  rw [keyCand1, keyCand1, hg, pcorr_rollv]

theorem chroma_mean_rollChroma (T : ℕ) (chroma : Fin 12 → ℕ → ℚ) (N : Fin 12) :
    chroma_mean T (rollChroma N chroma) = rollv (chroma_mean T chroma) N := rfl

theorem normProfile_rollChroma (T : ℕ) (chroma : Fin 12 → ℕ → ℚ) (N : Fin 12) :
    normProfile T (rollChroma N chroma) = rollv (normProfile T chroma) N := by
  simp only [normProfile, chroma_mean_rollChroma, vsum_rollv]
  by_cases h : 0 < vsum (chroma_mean T chroma)
  · rw [if_pos h, if_pos h]
    rfl
  · rw [if_neg h, if_neg h]

theorem profOf_true : profOf true = major_profile := rfl

theorem profOf_false : profOf false = minor_profile := rfl

/-- The 24 key-name strings are pairwise distinct. -/
theorem keyName_inj : ∀ (r1 r2 : Fin 12) (m1 m2 : Bool),
    keyName r1 m1 = keyName r2 m2 → r1 = r2 ∧ m1 = m2 := by decide

/-- Membership in the correlation list, characterised by root and mode. -/
theorem mem_keyEntries {T : ℕ} {chroma : Fin 12 → ℕ → ℚ} {e : KEntry} :
    e ∈ keyEntries T chroma ↔ ∃ (r : Fin 12) (m : Bool),
      ¬ (keyCand1 (normProfile T chroma) (profOf m) r).isNaN ∧
      e = (keyCand1 (normProfile T chroma) (profOf m) r, keyName r m) := by
  rw [keyEntries, List.mem_flatMap]
  constructor
  · rintro ⟨i, -, hei⟩
    rw [keyCands, List.mem_append] at hei
    rcases hei with h | h
    · by_cases hn : (keyCand1 (normProfile T chroma) major_profile i).isNaN
      · rw [if_pos hn] at h; cases h
      · rw [if_neg hn, List.mem_singleton] at h
        exact ⟨i, true, hn, h⟩
    · by_cases hn : (keyCand1 (normProfile T chroma) minor_profile i).isNaN
      · rw [if_pos hn] at h; cases h
      · rw [if_neg hn, List.mem_singleton] at h
        exact ⟨i, false, hn, h⟩
  · rintro ⟨r, m, hn, he⟩
    refine ⟨r, List.mem_finRange r, ?_⟩
    rw [keyCands, List.mem_append]
    cases m
    · rw [profOf_false] at hn he
      exact Or.inr (by rw [if_neg hn, List.mem_singleton]; exact he)
    · rw [profOf_true] at hn he
      exact Or.inl (by rw [if_neg hn, List.mem_singleton]; exact he)

/-- C6 (amended): rotation consistency of
`detect_key_krumhansl_schmuckler_enhanced` holds whenever the detected key's
correlation value strictly dominates every other candidate (no tie at the
maximum): if `(c, keyName r m)` is in the correlation list and every
other-named entry compares strictly below `c`, then the detector returns
that key, and on the chroma matrix with every column circularly shifted up
by `N` semitones it returns the tonic shifted by `N`, the same mode, and the
very same correlation record (hence the same confidence).  The unrestricted
claim is false: ties are re-broken by name after rotation
(`C6_counterexample`). -/
theorem C6_rotation_consistency (T : ℕ) (chroma : Fin 12 → ℕ → ℚ)
    (N r : Fin 12) (m : Bool) (c : PCorr)
    (hmem : (c, keyName r m) ∈ keyEntries T chroma)
    (hdom : ∀ x ∈ keyEntries T chroma, x.2 ≠ keyName r m → x.1.ltB c = true) :
    detect_key_krumhansl_schmuckler_enhanced T chroma = some (keyName r m, c) ∧
    detect_key_krumhansl_schmuckler_enhanced T (rollChroma N chroma) =
      some (keyName (r + N) m, c) := by
  obtain ⟨r0, m0, hn0, he0⟩ := mem_keyEntries.mp hmem
  obtain ⟨hr0, hm0⟩ :=
    keyName_inj r0 r m0 m ((congrArg Prod.snd he0).symm)
  subst hr0
  subst hm0
  have hc : c = keyCand1 (normProfile T chroma) (profOf m0) r0 :=
    congrArg Prod.fst he0
  have hstrict : ∀ x ∈ keyEntries T chroma, x ≠ (c, keyName r0 m0) →
      kentLtB x (c, keyName r0 m0) = true := by
    intro x hx hne
    by_cases hn2 : x.2 = keyName r0 m0
    · exfalso
      obtain ⟨r1, m1, hn1, he1⟩ := mem_keyEntries.mp hx
      have hname : keyName r1 m1 = keyName r0 m0 := by
        rw [← hn2, he1]
      obtain ⟨hr1, hm1⟩ := keyName_inj r1 r0 m1 m0 hname
      subst hr1
      subst hm1
      exact hne (by rw [he1, ← hc])
    · have hlt : x.1.ltB c = true := hdom x hx hn2
      show (x.1.ltB c || (x.1.eqB c && strLtB x.2.data (keyName r0 m0).data)) = true
      rw [hlt, Bool.true_or]
  have hdet1 := detect_key_eq_of_strict_max T chroma (c, keyName r0 m0) hmem hstrict
  have hcand' : keyCand1 (normProfile T (rollChroma N chroma)) (profOf m0) (r0 + N) = c := by
    have hcancel : r0 + N - N = r0 := by ring
    rw [normProfile_rollChroma, keyCand1_rollv, hcancel, ← hc]
  have hmem' : (c, keyName (r0 + N) m0) ∈ keyEntries T (rollChroma N chroma) :=
    mem_keyEntries.mpr ⟨r0 + N, m0, by rw [hcand', hc]; exact hn0, by rw [hcand']⟩
  have hstrict' : ∀ y ∈ keyEntries T (rollChroma N chroma),
      y ≠ (c, keyName (r0 + N) m0) → kentLtB y (c, keyName (r0 + N) m0) = true := by
    intro y hy hne
    obtain ⟨r1, m1, hn1, he1⟩ := mem_keyEntries.mp hy
    have hy1 : y.1 = keyCand1 (normProfile T chroma) (profOf m1) (r1 - N) := by
      have h0 : y.1 = keyCand1 (normProfile T (rollChroma N chroma)) (profOf m1) r1 :=
        congrArg Prod.fst he1
      rw [h0, normProfile_rollChroma, keyCand1_rollv]
    have hyo : (y.1, keyName (r1 - N) m1) ∈ keyEntries T chroma := by
      refine mem_keyEntries.mpr ⟨r1 - N, m1, ?_, ?_⟩
      · have h1 := hn1
        rw [normProfile_rollChroma, keyCand1_rollv] at h1
        exact h1
      · rw [hy1]
    by_cases hcase : r1 - N = r0 ∧ m1 = m0
    · exfalso
      obtain ⟨hr1, hm1⟩ := hcase
      have hr1' : r1 = r0 + N := by rw [← hr1]; ring
      refine hne ?_
      rw [he1, hr1', hm1, hcand']
    · have hnameNe : keyName (r1 - N) m1 ≠ keyName r0 m0 := by
        intro heq
        exact hcase (keyName_inj (r1 - N) r0 m1 m0 heq)
      have hlt : y.1.ltB c = true := hdom (y.1, keyName (r1 - N) m1) hyo hnameNe
      show (y.1.ltB c || (y.1.eqB c && strLtB y.2.data (keyName (r0 + N) m0).data)) = true
      rw [hlt, Bool.true_or]
  have hdet2 := detect_key_eq_of_strict_max T (rollChroma N chroma)
    (c, keyName (r0 + N) m0) hmem' hstrict'
  exact ⟨hdet1, hdet2⟩

/-- Witness: on the C-concentrated matrix `chromaE0` the premises hold with
`r = 0`, `m = major`; transposing by 5 semitones moves the detected tonic
from C to F with an unchanged correlation record. -/
theorem C6_rotation_consistency_witness :
    (((⟨Rat.mk' 1147 1393, Rat.mk' 11 1, Rat.mk' 36469 277207⟩ : PCorr), keyName 0 true) ∈
      keyEntries 1 chromaE0) ∧
    (∀ x ∈ keyEntries 1 chromaE0, x.2 ≠ keyName 0 true →
      x.1.ltB (⟨Rat.mk' 1147 1393, Rat.mk' 11 1, Rat.mk' 36469 277207⟩ : PCorr) = true) ∧
    detect_key_krumhansl_schmuckler_enhanced 1 chromaE0 =
      some (keyName 0 true, ⟨Rat.mk' 1147 1393, Rat.mk' 11 1, Rat.mk' 36469 277207⟩) ∧
    detect_key_krumhansl_schmuckler_enhanced 1 (rollChroma 5 chromaE0) =
      some (keyName (0 + 5) true, ⟨Rat.mk' 1147 1393, Rat.mk' 11 1, Rat.mk' 36469 277207⟩) := by
  have hmem : ((⟨Rat.mk' 1147 1393, Rat.mk' 11 1, Rat.mk' 36469 277207⟩ : PCorr), keyName 0 true) ∈
      keyEntries 1 chromaE0 := by
    rw [keyEntries_E0, entE0]
    exact List.mem_cons_self _ _
  have hdom : ∀ x ∈ keyEntries 1 chromaE0, x.2 ≠ keyName 0 true →
      x.1.ltB (⟨Rat.mk' 1147 1393, Rat.mk' 11 1, Rat.mk' 36469 277207⟩ : PCorr) = true := by
    rw [keyEntries_E0]
    intro x hx hne
    rw [entE0] at hx
    fin_cases hx
    · exact absurd rfl hne
    all_goals with_unfolding_all rfl
  obtain ⟨h1, h2⟩ := C6_rotation_consistency 1 chromaE0 5 0 true
    ⟨Rat.mk' 1147 1393, Rat.mk' 11 1, Rat.mk' 36469 277207⟩ hmem hdom
  exact ⟨hmem, hdom, h1, h2⟩

/-- C6 counterexample: `chromaTie` is detected as "F# maior" (a tie between
C and F# broken by the name comparison), but after transposing it up 3
semitones the detector answers "D# maior", not the "A maior" that rotation
consistency would demand. -/
theorem C6_counterexample :
    detect_key_krumhansl_schmuckler_enhanced 1 chromaTie =
      some (keyName 6 true, ⟨Rat.mk' 381 1393, Rat.mk' 5 1, Rat.mk' 36469 277207⟩) ∧
    (detect_key_krumhansl_schmuckler_enhanced 1 (rollChroma 3 chromaTie)).map Prod.fst =
      some "D# maior" ∧
    ("D# maior" : String) ≠ keyName (6 + 3) true := by
  refine ⟨?_, ?_, ?_⟩
  · have hdet := detect_key_eq_of_strict_max 1 chromaTie
      ((⟨Rat.mk' 381 1393, Rat.mk' 5 1, Rat.mk' 36469 277207⟩ : PCorr), keyName 6 true)
      (by
        rw [keyEntries_Tie, entTie]
        repeat
          first
          | exact List.mem_cons_self _ _
          | apply List.mem_cons_of_mem)
      (by
        rw [keyEntries_Tie]
        intro x hx hne
        rw [entTie] at hx
        fin_cases hx
        all_goals
          first
          | exact absurd rfl hne
          | with_unfolding_all rfl)
    exact hdet
  · have hdet := detect_key_eq_of_strict_max 1 (rollChroma 3 chromaTie)
      ((⟨Rat.mk' 381 1393, Rat.mk' 5 1, Rat.mk' 36469 277207⟩ : PCorr), "D# maior")
      (by
        rw [keyEntries_Tie3, entTie3]
        repeat
          first
          | exact List.mem_cons_self _ _
          | apply List.mem_cons_of_mem)
      (by
        rw [keyEntries_Tie3]
        intro x hx hne
        rw [entTie3] at hx
        fin_cases hx
        all_goals
          first
          | exact absurd rfl hne
          | with_unfolding_all rfl)
    rw [hdet]
    rfl
  · decide

/-! ### C7: `classify_progression` -/

/-- `sep` is a prefix of `s` (on character lists). -/
def startsWith : List Char → List Char → Bool
  | [], _ => true
  | _ :: _, [] => false
  | a :: as, b :: bs => (a == b) && startsWith as bs

/-- Python `s.split(sep)[0]` for a non-empty separator: the prefix of `s`
before the first occurrence of `sep`. -/
def splitHead (sep : List Char) : List Char → List Char
  | [] => []
  | c :: cs => if startsWith sep (c :: cs) then [] else c :: splitHead sep cs

/-- `chord.split('m')[0].split('7')[0].split('dim')[0]`. -/
def stripRoot (s : String) : String :=
  String.mk (splitHead ['d', 'i', 'm'] (splitHead ['7'] (splitHead ['m'] s.data)))

/-- The fixed table `common_progressions` of `classify_progression`. -/
def common_progressions : List ((String × String) × String) :=
  [(("C", "F"), "I-IV"),
   (("C", "G"), "I-V"),
   (("Am", "F"), "vi-IV"),
   (("F", "G"), "IV-V"),
   (("G", "C"), "V-I"),
   (("Am", "C"), "vi-I")]

/-- `classify_progression(chords1, chords2)`: scan the `(chord1, chord2)`
pairs in list order, strip the quality suffixes of both names, and return
the label of the first pair of stripped roots present in the table;
otherwise the fallback label. -/
def classify_progression (chords1 chords2 : List String) : String :=
  (chords1.findSome? (fun c1 =>
      chords2.findSome? (fun c2 =>
        (common_progressions.find? (fun e =>
          e.1.1 == stripRoot c1 && e.1.2 == stripRoot c2)).map Prod.snd))).getD
    "Progressão personalizada"

theorem mem_splitHead (sep : List Char) :
    ∀ (l : List Char) (x : Char), x ∈ splitHead sep l → x ∈ l := by
  intro l
  induction l with
  | nil => intro x h; exact absurd h (List.not_mem_nil x)
  | cons c cs ih =>
      intro x h
      simp only [splitHead] at h
      by_cases hp : startsWith sep (c :: cs) = true
      · rw [if_pos hp] at h
        exact absurd h (List.not_mem_nil x)
      · rw [if_neg hp] at h
        rcases List.mem_cons.mp h with h | h
        · exact h ▸ List.mem_cons_self c cs
        · exact List.mem_cons_of_mem c (ih x h)

theorem not_mem_splitHead_single (a : Char) :
    ∀ (l : List Char), a ∉ splitHead [a] l := by
  intro l
  induction l with
  | nil => exact List.not_mem_nil a
  | cons c cs ih =>
      simp only [splitHead]
      by_cases hp : startsWith [a] (c :: cs) = true
      · rw [if_pos hp]
        exact List.not_mem_nil a
      · rw [if_neg hp]
        intro h
        rcases List.mem_cons.mp h with h | h
        · exact hp (by simp [startsWith, h])
        · exact ih h

/-- A stripped root never contains the letter 'm' (it was split away
first), so the table rows keyed by "Am" can never be matched. -/
theorem stripRoot_no_m (s : String) : 'm' ∉ (stripRoot s).data := by
  intro h
  have h1 := mem_splitHead ['d', 'i', 'm'] _ _ h
  have h2 := mem_splitHead ['7'] _ _ h1
  exact not_mem_splitHead_single 'm' s.data h2

/-- C7 (amended): `classify_progression` does scan the chord pairs in the
given order and return the first table hit over the stripped roots, with the
fallback label otherwise — but stripping removes every 'm', so the two table
rows keyed by "Am" ("vi-IV" and "vi-I") are unreachable: the result is
always one of the four major-key labels or the fallback. -/
theorem C7_classify_progression_reachable (chords1 chords2 : List String) :
    classify_progression chords1 chords2 ∈
      ["I-IV", "I-V", "IV-V", "V-I", "Progressão personalizada"] := by
  rw [classify_progression]
  rcases hfs : chords1.findSome? (fun c1 =>
      chords2.findSome? (fun c2 =>
        (common_progressions.find? (fun e =>
          e.1.1 == stripRoot c1 && e.1.2 == stripRoot c2)).map Prod.snd)) with _ | l
  · rw [hfs, Option.getD_none]
    decide
  · rw [hfs, Option.getD_some]
    obtain ⟨c1, hc1, hin⟩ := List.exists_of_findSome?_eq_some hfs
    obtain ⟨c2, hc2, hfind⟩ := List.exists_of_findSome?_eq_some hin
    rw [Option.map_eq_some'] at hfind
    obtain ⟨e, hfe, hel⟩ := hfind
    have hp := List.find?_some hfe
    have hmem := List.mem_of_find?_eq_some hfe
    rw [Bool.and_eq_true, beq_iff_eq, beq_iff_eq] at hp
    obtain ⟨hp1, hp2⟩ := hp
    subst hel
    fin_cases hmem
    · decide
    · decide
    · exfalso
      have h1 : ("Am" : String) = stripRoot c1 := hp1
      exact stripRoot_no_m c1 (h1 ▸ (by decide : 'm' ∈ ("Am" : String).data))
    · decide
    · decide
    · exfalso
      have h1 : ("Am" : String) = stripRoot c1 := hp1
      exact stripRoot_no_m c1 (h1 ▸ (by decide : 'm' ∈ ("Am" : String).data))

/-- C7 counterexample: with "Am" in the from-list and "F" in the to-list
the claim demands "vi-IV", but stripping turns "Am" into "A", the lookup
misses, and the fallback is returned — even though the "vi-IV" row is in
the table. -/
theorem C7_counterexample :
    classify_progression ["Am"] ["F"] = "Progressão personalizada" ∧
    (("Am", "F"), "vi-IV") ∈ common_progressions ∧
    ("Progressão personalizada" : String) ≠ "vi-IV" := by
  refine ⟨rfl, ?_, by decide⟩
  exact List.mem_cons_of_mem _ (List.mem_cons_of_mem _ (List.mem_cons_self _ _))

/-! ### C8: `analyze_musical_structure` -/

/-- The block start indices `range(0, T − 44, 22)` (empty when
`T − 44 ≤ 0`, in Python int arithmetic). -/
def structStarts (T : ℕ) : List ℕ :=
  (List.range ((T - 44 + 21) / 22)).map (fun k => 22 * k)

/-- The mean feature vector of the 44-frame block starting at column `i`. -/
def structBlockMean (chroma : Fin 12 → ℕ → ℚ) (i : ℕ) : PCVec :=
  fun p => (∑ t ∈ Finset.range 44, chroma p (i + t)) / 44

/-- `section_names` of `analyze_musical_structure`. -/
def section_names : List String := ["Intro", "Verso", "Refrão", "Ponte"]

/-- One entry of the `sections` list (Python dict with keys `section`,
`start_time`, `cluster_id`). -/
structure StructSection where
  sec : String
  start_time : ℚ
  cluster_id : ℕ
deriving DecidableEq

/-- The result dict of `analyze_musical_structure`. -/
structure StructResult where
  sections : List StructSection
  n_sections : ℕ
  structure_confidence : ℚ
deriving DecidableEq

/-- `analyze_musical_structure(chroma, beats)` on the first `T` columns.
The K-means call is abstracted by the oracle `kmeans`, which returns the
cluster labels and the mean of the cluster centres; the degenerate branch
never invokes it. -/
def analyze_musical_structure (T : ℕ) (chroma : Fin 12 → ℕ → ℚ)
    (kmeans : List PCVec → ℕ → List ℕ × ℚ) : StructResult :=
  let segments := (structStarts T).map (structBlockMean chroma)
  if 3 < segments.length then
    let n_clusters := min 4 (segments.length / 2)
    let res := kmeans segments n_clusters
    { sections := res.1.enum.map (fun li =>
        { sec := section_names.getD (li.2 % section_names.length) "",
          start_time := (li.1 : ℚ) * 44 * 512 / 22050 / 2,
          cluster_id := li.2 }),
      n_sections := n_clusters,
      structure_confidence := res.2 }
  else { sections := [], n_sections := 0, structure_confidence := 0 }

/-- C8: whenever fewer than 4 coarse 50%-overlapping block vectors can be
formed, the structure analysis returns the defined degenerate result —
empty section list, `n_sections = 0`, confidence 0 — for every chroma
matrix and every clustering oracle (the oracle is never consulted). -/
theorem C8_structure_degenerate (T : ℕ) (chroma : Fin 12 → ℕ → ℚ)
    (kmeans : List PCVec → ℕ → List ℕ × ℚ)
    (h : (structStarts T).length < 4) :
    analyze_musical_structure T chroma kmeans =
      { sections := [], n_sections := 0, structure_confidence := 0 } := by
  simp only [analyze_musical_structure]
  have hlen : ((structStarts T).map (structBlockMean chroma)).length < 4 := by
    rw [List.length_map]; exact h
  rw [if_neg (by omega)]

/-- Witness: a 100-frame matrix produces only 3 coarse blocks, hence the
degenerate result. -/
theorem C8_structure_degenerate_witness :
    (structStarts 100).length < 4 ∧
    analyze_musical_structure 100 zeroChroma (fun _ _ => ([], 0)) =
      { sections := [], n_sections := 0, structure_confidence := 0 } :=
  ⟨by decide, C8_structure_degenerate 100 zeroChroma (fun _ _ => ([], 0)) (by decide)⟩

/-! ### C3 and C10: `analyze_segments_optimized` -/

/-- One entry of the `segmented_analysis` list. -/
structure Segment where
  start_time : ℚ
  end_time : ℚ
  tonalidade : String
  confianca : PCorr
  acordes : List String
  estabilidade : ℚ
deriving DecidableEq

/-- One entry of the `key_changes` list.  The Python dict stores the float
`confidence_change = abs(key_confidence - previous_confidence)`; we keep
both correlation records, whose real values determine it
(`KeyChangeEvent.confidence_change`). -/
structure KeyChangeEvent where
  time : ℚ
  from_key : String
  to_key : String
  conf_from : PCorr
  conf_to : PCorr
deriving DecidableEq

/-- The real number stored as `confidence_change`. -/
noncomputable def KeyChangeEvent.confidence_change (e : KeyChangeEvent) : ℝ :=
  |e.conf_to.val - e.conf_from.val|

/-- `calculate_harmonic_stability` on the first `T0` columns: one minus the
mean over pitch classes of the temporal population variance, clamped to
`[0, 1]`. -/
def calculate_harmonic_stability (T0 : ℕ) (seg : Fin 12 → ℕ → ℚ) : ℚ :=
  max 0 (min 1 (1 - (∑ p, ((∑ t ∈ Finset.range T0,
    (seg p t - (∑ u ∈ Finset.range T0, seg p u) / T0) *
    (seg p t - (∑ u ∈ Finset.range T0, seg p u) / T0)) / T0)) / 12))

/-- The segment start indices `range(0, T - fps + 1, hopf)` for `hopf > 0`
(Python int arithmetic: empty when `fps > T`). -/
def segStarts (T fps hopf : ℕ) : List ℕ :=
  (List.range ((T + 1 - fps + hopf - 1) / hopf)).map (fun k => hopf * k)

/-- The segment record appended for start index `i` once key detection
returned `sk`. -/
def mkSegment (sr hop fps : ℕ) (duration : ℚ) (chroma : Fin 12 → ℕ → ℚ)
    (chordsInSeg : ℕ → List String) (i : ℕ) (sk : String × PCorr) : Segment :=
  { start_time := (i : ℚ) * hop / sr,
    end_time := min (((i : ℚ) + fps) * hop / sr) duration,
    tonalidade := sk.1,
    confianca := sk.2,
    acordes := chordsInSeg i,
    estabilidade := calculate_harmonic_stability fps (fun p t => chroma p (i + t)) }

/-- The key-change list update of one loop iteration: an event is appended
exactly when there is a previous segment, its key differs, and the
confidence jump exceeds the threshold. -/
def updEvents (events : List KeyChangeEvent) (prev : Option (String × PCorr))
    (stime : ℚ) (sk : String × PCorr) : List KeyChangeEvent :=
  match prev with
  | some pk =>
      if pk.1 ≠ sk.1 ∧ sk.2.absDiffGtB pk.2 key_change_threshold then
        events ++ [{ time := stime, from_key := pk.1, to_key := sk.1,
                     conf_from := pk.2, conf_to := sk.2 }]
      else events
  | none => events

/-- The loop of `analyze_segments_optimized` over the start indices;
`prev` carries `(previous_key, previous_confidence)`.  `none` models the
`IndexError` raised by key detection on a degenerate segment (C2). -/
def segLoop (sr hop fps : ℕ) (duration : ℚ) (chroma : Fin 12 → ℕ → ℚ)
    (chordsInSeg : ℕ → List String) :
    List ℕ → List Segment → List KeyChangeEvent → Option (String × PCorr) →
      Option (List Segment × List KeyChangeEvent)
  | [], segs, events, _ => some (segs, events)
  | i :: rest, segs, events, prev =>
      (detect_key_krumhansl_schmuckler_enhanced fps (fun p t => chroma p (i + t))).bind
        (fun sk =>
          segLoop sr hop fps duration chroma chordsInSeg rest
            (segs ++ [mkSegment sr hop fps duration chroma chordsInSeg i sk])
            (updEvents events prev ((i : ℚ) * hop / sr) sk)
            (some (sk.1, sk.2)))

/-- `analyze_segments_optimized(chroma, sr, hop_length, duration)` on the
first `T` columns, with `frames_per_segment = int(3.0 * sr / hop)` and
`hop_frames = int(frames_per_segment * 0.5)`.  The guard returns `none` for
the raising configurations (`ZeroDivisionError` when `sr = 0` or `hop = 0`,
`ValueError` from a zero `range` step when `hop_frames = 0`); the in-range
windows always have `frames_per_segment > 0` columns, so the positive-width
check of the source is always true.  The per-segment chord detection is
abstracted by the oracle `chordsInSeg`. -/
def analyze_segments_optimized (sr hop : ℕ) (duration : ℚ) (T : ℕ)
    (chroma : Fin 12 → ℕ → ℚ) (chordsInSeg : ℕ → List String) :
    Option (List Segment × List KeyChangeEvent) :=
  if sr = 0 ∨ hop = 0 ∨ 3 * sr / hop / 2 = 0 then none
  else
    segLoop sr hop (3 * sr / hop) duration chroma chordsInSeg
      (segStarts T (3 * sr / hop) (3 * sr / hop / 2)) [] [] none

/-- Stated from the claim's words: the event a consecutive pair of segments
should contribute — one event timed at the *new* segment's start when the
key label changed and the confidence jumped by more than the threshold,
nothing otherwise. -/
def stepEvents (a b : Segment) : List KeyChangeEvent :=
  if a.tonalidade ≠ b.tonalidade ∧
      b.confianca.absDiffGtB a.confianca key_change_threshold then
    [{ time := b.start_time, from_key := a.tonalidade, to_key := b.tonalidade,
       conf_from := a.confianca, conf_to := b.confianca }]
  else []

/-- Stated from the claim's words: the full key-change list determined by
the segment list, one `stepEvents` block per consecutive pair. -/
def eventsSpec : List Segment → List KeyChangeEvent
  | [] => []
  | [_] => []
  | a :: b :: rest => stepEvents a b ++ eventsSpec (b :: rest)

theorem eventsSpec_snoc : ∀ (l : List Segment) (a b : Segment),
    eventsSpec (l ++ [a, b]) = eventsSpec (l ++ [a]) ++ stepEvents a b
  | [], a, b => by
      show eventsSpec [a, b] = eventsSpec [a] ++ stepEvents a b
      rw [eventsSpec, eventsSpec, eventsSpec, List.append_nil, List.nil_append]
  | [c], a, b => by
      show eventsSpec [c, a, b] = eventsSpec [c, a] ++ stepEvents a b
      rw [eventsSpec, eventsSpec, eventsSpec, eventsSpec, eventsSpec,
        List.append_nil, List.append_nil]
  | c :: d :: l, a, b => by
      show eventsSpec (c :: d :: (l ++ [a, b])) =
        eventsSpec (c :: d :: (l ++ [a])) ++ stepEvents a b
      rw [eventsSpec, eventsSpec]
      have ih := eventsSpec_snoc (d :: l) a b
      rw [List.cons_append, List.cons_append] at ih
      rw [ih, List.append_assoc]

/-- Every event generated by `updEvents` from a recorded previous segment
is exactly the `stepEvents` contribution of that pair. -/
theorem updEvents_step (events : List KeyChangeEvent) (s seg : Segment) :
    updEvents events (some (s.tonalidade, s.confianca)) seg.start_time
      (seg.tonalidade, seg.confianca) = events ++ stepEvents s seg := by
  rw [updEvents, stepEvents]
  by_cases hc : s.tonalidade ≠ seg.tonalidade ∧
      seg.confianca.absDiffGtB s.confianca key_change_threshold = true
  · rw [if_pos hc, if_pos hc]
  · rw [if_neg hc, if_neg hc, List.append_nil]

/-- A successful key detection yields a valid (positive-variance)
correlation record. -/
theorem detect_key_valid {T : ℕ} {chroma : Fin 12 → ℕ → ℚ} {name : String}
    {c : PCorr}
    (h : detect_key_krumhansl_schmuckler_enhanced T chroma = some (name, c)) :
    c.valid :=
  keyEntries_valid T chroma _ (detect_key_head_spec T chroma name c h).1

/-- Loop invariant: a successful run extends the segment list with
valid-correlation segments and keeps the event list equal to the
per-consecutive-pair specification of the segment list. -/
theorem segLoop_spec (sr hop fps : ℕ) (duration : ℚ)
    (chroma : Fin 12 → ℕ → ℚ) (chordsInSeg : ℕ → List String) :
    ∀ (starts : List ℕ) (segs : List Segment) (events : List KeyChangeEvent)
      (prev : Option (String × PCorr)),
      (∀ s ∈ segs, s.confianca.valid) →
      events = eventsSpec segs →
      ((segs = [] ∧ prev = none) ∨
        (∃ l' s, segs = l' ++ [s] ∧ prev = some (s.tonalidade, s.confianca))) →
      ∀ res, segLoop sr hop fps duration chroma chordsInSeg starts segs events prev =
        some res →
      (∀ s ∈ res.1, s.confianca.valid) ∧ res.2 = eventsSpec res.1 := by
  intro starts
  induction starts with
  | nil =>
      intro segs events prev hval hev _ res hrun
      simp only [segLoop] at hrun
      injection hrun with h
      subst h
      exact ⟨hval, hev⟩
  | cons i rest ih =>
      intro segs events prev hval hev hprev res hrun
      simp only [segLoop] at hrun
      rcases hdet : detect_key_krumhansl_schmuckler_enhanced fps
          (fun p t => chroma p (i + t)) with _ | sk
      · rw [hdet, Option.none_bind] at hrun
        cases hrun
      · rw [hdet, Option.some_bind] at hrun
        have hskval : sk.2.valid := detect_key_valid (show _ = some (sk.1, sk.2) from hdet)
        have hval' : ∀ s ∈ segs ++ [mkSegment sr hop fps duration chroma chordsInSeg i sk],
            s.confianca.valid := by
          intro s hs
          rcases List.mem_append.mp hs with hs | hs
          · exact hval s hs
          · rw [List.mem_singleton] at hs
            subst hs
            exact hskval
        have hev' : updEvents events prev ((i : ℚ) * hop / sr) sk =
            eventsSpec (segs ++ [mkSegment sr hop fps duration chroma chordsInSeg i sk]) := by
          rcases hprev with ⟨hsegs, hpv⟩ | ⟨l', s, hsegs, hpv⟩
          · subst hsegs
            subst hpv
            rw [hev]
            show eventsSpec [] = eventsSpec ([] ++ [_])
            rw [List.nil_append, eventsSpec, eventsSpec]
          · subst hsegs
            subst hpv
            rw [hev]
            have h1 := updEvents_step (eventsSpec (l' ++ [s])) s
              (mkSegment sr hop fps duration chroma chordsInSeg i sk)
            have h2 : eventsSpec ((l' ++ [s]) ++
                  [mkSegment sr hop fps duration chroma chordsInSeg i sk]) =
                eventsSpec (l' ++ [s]) ++
                  stepEvents s (mkSegment sr hop fps duration chroma chordsInSeg i sk) := by
              rw [List.append_assoc]
              exact eventsSpec_snoc l' s _
            rw [h2]
            exact h1
        have hprev' : (segs ++ [mkSegment sr hop fps duration chroma chordsInSeg i sk] = [] ∧
              some (sk.1, sk.2) = none) ∨
            (∃ l' s, segs ++ [mkSegment sr hop fps duration chroma chordsInSeg i sk] =
                l' ++ [s] ∧
              some (sk.1, sk.2) = some (s.tonalidade, s.confianca)) :=
          Or.inr ⟨segs, mkSegment sr hop fps duration chroma chordsInSeg i sk, rfl, rfl⟩
        exact ih _ _ _ hval' hev' hprev' res hrun

/-- Events of the per-pair specification always have distinct keys and a
real confidence jump strictly above the threshold. -/
theorem eventsSpec_sound : ∀ (l : List Segment),
    (∀ s ∈ l, s.confianca.valid) →
    ∀ ev ∈ eventsSpec l, ev.from_key ≠ ev.to_key ∧
      ((key_change_threshold : ℚ) : ℝ) < |ev.conf_to.val - ev.conf_from.val|
  | [], _, ev, h => absurd h (List.not_mem_nil ev)
  | [s], _, ev, h => by
      rw [eventsSpec] at h
      exact absurd h (List.not_mem_nil ev)
  | a :: b :: rest, hval, ev, h => by
      rw [eventsSpec, List.mem_append] at h
      rcases h with h | h
      · rw [stepEvents] at h
        by_cases hc : a.tonalidade ≠ b.tonalidade ∧
            b.confianca.absDiffGtB a.confianca key_change_threshold = true
        · rw [if_pos hc] at h
          rw [List.mem_singleton] at h
          subst h
          refine ⟨hc.1, ?_⟩
          have hb : b.confianca.valid :=
            hval b (List.mem_cons_of_mem a (List.mem_cons_self b rest))
          have ha : a.confianca.valid := hval a (List.mem_cons_self a _)
          exact (PCorr.absDiffGtB_iff hb ha key_change_threshold).mp hc.2
        · rw [if_neg hc] at h
          exact absurd h (List.not_mem_nil ev)
      · exact eventsSpec_sound (b :: rest)
          (fun s hs => hval s (List.mem_cons_of_mem a hs)) ev h

/-- C3: for every configuration and every successful run of
`analyze_segments_optimized`, the emitted key-change list is exactly the
per-consecutive-pair event list of the produced segments (`eventsSpec`):
each event is timed at the new segment's start and links that pair's keys
and confidences, a pair with an unchanged key label contributes no event
regardless of confidence, and every emitted event has `from_key ≠ to_key`
together with a real confidence jump strictly above the 0.15 threshold. -/
theorem C3_key_change_invariant (sr hop : ℕ) (duration : ℚ) (T : ℕ)
    (chroma : Fin 12 → ℕ → ℚ) (chordsInSeg : ℕ → List String)
    (segs : List Segment) (events : List KeyChangeEvent)
    (hrun : analyze_segments_optimized sr hop duration T chroma chordsInSeg =
      some (segs, events)) :
    events = eventsSpec segs ∧
    (∀ s ∈ segs, s.confianca.valid) ∧
    (∀ ev ∈ events, ev.from_key ≠ ev.to_key ∧
      ((key_change_threshold : ℚ) : ℝ) < |ev.conf_to.val - ev.conf_from.val|) := by
  rw [analyze_segments_optimized] at hrun
  by_cases hg : sr = 0 ∨ hop = 0 ∨ 3 * sr / hop / 2 = 0
  · rw [if_pos hg] at hrun
    cases hrun
  · rw [if_neg hg] at hrun
    have h := segLoop_spec sr hop (3 * sr / hop) duration chroma chordsInSeg
      (segStarts T (3 * sr / hop) (3 * sr / hop / 2)) [] [] none
      (by intro s hs; exact absurd hs (List.not_mem_nil s)) rfl
      (Or.inl ⟨rfl, rfl⟩) (segs, events) hrun
    exact ⟨h.2, h.1, fun ev hev => eventsSpec_sound segs h.1 ev (h.2 ▸ hev)⟩

theorem segStarts_nil {T fps hopf : ℕ} (hT : T < fps) (hh : hopf ≠ 0) :
    segStarts T fps hopf = [] := by
  rw [segStarts]
  have h0 : (T + 1 - fps + hopf - 1) / hopf = 0 := Nat.div_eq_of_lt (by omega)
  rw [h0]
  rfl

theorem segStarts_fit {T fps hopf : ℕ} (hh : hopf ≠ 0) :
    ∀ i ∈ segStarts T fps hopf, i + fps ≤ T := by
  intro i hi
  rw [segStarts, List.mem_map] at hi
  obtain ⟨k, hk, rfl⟩ := hi
  rw [List.mem_range] at hk
  have h1 : hopf * (k + 1) ≤ hopf * ((T + 1 - fps + hopf - 1) / hopf) :=
    Nat.mul_le_mul (Nat.le_refl hopf) hk
  have h2 : hopf * ((T + 1 - fps + hopf - 1) / hopf) ≤ T + 1 - fps + hopf - 1 := by
    rw [mul_comm]
    exact Nat.div_mul_le_self _ _
  have h3 : hopf * k + hopf ≤ T + 1 - fps + hopf - 1 := by
    calc hopf * k + hopf = hopf * (k + 1) := by ring
      _ ≤ hopf * ((T + 1 - fps + hopf - 1) / hopf) := h1
      _ ≤ T + 1 - fps + hopf - 1 := h2
  generalize hm : hopf * k = m at h3 ⊢
  omega

/-- C10: in every non-raising configuration, each analysed window fits
entirely inside the matrix (`i + frames_per_segment ≤ T` for every start
index `i`), and a matrix shorter than one full segment window produces the
empty segment list and the empty key-change list. -/
theorem C10_short_input (sr hop : ℕ) (duration : ℚ) (T : ℕ)
    (chroma : Fin 12 → ℕ → ℚ) (chordsInSeg : ℕ → List String)
    (hhf : 3 * sr / hop / 2 ≠ 0) :
    (∀ (U : ℕ), ∀ i ∈ segStarts U (3 * sr / hop) (3 * sr / hop / 2),
      i + 3 * sr / hop ≤ U) ∧
    (T < 3 * sr / hop →
      analyze_segments_optimized sr hop duration T chroma chordsInSeg =
        some ([], [])) := by
  constructor
  · intro U
    exact segStarts_fit hhf
  · intro hT
    have hsr : sr ≠ 0 := by
      intro h
      rw [h] at hhf
      simp at hhf
    have hhop : hop ≠ 0 := by
      intro h
      rw [h] at hhf
      simp at hhf
    rw [analyze_segments_optimized, if_neg (by push_neg; exact ⟨hsr, hhop, hhf⟩)]
    rw [segStarts_nil hT hhf]
    rfl

/-- A 12×3 chroma matrix: frames 0 and 1 on pitch class C, frame 2 on F#. -/
def chromaW : Fin 12 → ℕ → ℚ :=
  fun p t => if t ≤ 1 then (if p = 0 then 1 else 0) else (if p = 6 then 1 else 0)

/-- The 24 correlation entries of the second window of `chromaW`. -/
def entW1 : List KEntry :=
  [(⟨Rat.mk' 1139 6965, Rat.mk' 131 25, Rat.mk' 36469 277207⟩, "C maior"),
   (⟨Rat.mk' 2081 22255, Rat.mk' 131 25, Rat.mk' 1920851 19811401⟩, "C menor"),
   (⟨Rat.mk' 247 6965, Rat.mk' 131 25, Rat.mk' 36469 277207⟩, "C# maior"),
   (⟨Rat.mk' (-1939) 22255, Rat.mk' 131 25, Rat.mk' 1920851 19811401⟩, "C# menor"),
   (⟨Rat.mk' 123 6965, Rat.mk' 131 25, Rat.mk' 36469 277207⟩, "D maior"),
   (⟨Rat.mk' (-4879) 22255, Rat.mk' 131 25, Rat.mk' 1920851 19811401⟩, "D menor"),
   (⟨Rat.mk' (-1241) 6965, Rat.mk' 131 25, Rat.mk' 36469 277207⟩, "D# maior"),
   (⟨Rat.mk' 3569 22255, Rat.mk' 131 25, Rat.mk' 1920851 19811401⟩, "D# menor"),
   (⟨Rat.mk' (-877) 6965, Rat.mk' 131 25, Rat.mk' 36469 277207⟩, "E maior"),
   (⟨Rat.mk' (-31) 22255, Rat.mk' 131 25, Rat.mk' 1920851 19811401⟩, "E menor"),
   (⟨Rat.mk' (-137) 6965, Rat.mk' 131 25, Rat.mk' 36469 277207⟩, "F maior"),
   (⟨Rat.mk' (-1207) 22255, Rat.mk' 131 25, Rat.mk' 1920851 19811401⟩, "F menor"),
   (⟨Rat.mk' 2671 6965, Rat.mk' 131 25, Rat.mk' 36469 277207⟩, "F# maior"),
   (⟨Rat.mk' 6629 22255, Rat.mk' 131 25, Rat.mk' 1920851 19811401⟩, "F# menor"),
   (⟨Rat.mk' (-237) 6965, Rat.mk' 131 25, Rat.mk' 36469 277207⟩, "G maior"),
   (⟨Rat.mk' (-2371) 22255, Rat.mk' 131 25, Rat.mk' 1920851 19811401⟩, "G menor"),
   (⟨Rat.mk' (-713) 6965, Rat.mk' 131 25, Rat.mk' 36469 277207⟩, "G# maior"),
   (⟨Rat.mk' (-3991) 22255, Rat.mk' 131 25, Rat.mk' 1920851 19811401⟩, "G# menor"),
   (⟨Rat.mk' (-709) 6965, Rat.mk' 131 25, Rat.mk' 36469 277207⟩, "A maior"),
   (⟨Rat.mk' 341 22255, Rat.mk' 131 25, Rat.mk' 1920851 19811401⟩, "A menor"),
   (⟨Rat.mk' (-1313) 6965, Rat.mk' 131 25, Rat.mk' 36469 277207⟩, "A# maior"),
   (⟨Rat.mk' 521 22255, Rat.mk' 131 25, Rat.mk' 1920851 19811401⟩, "A# menor"),
   (⟨Rat.mk' 1047 6965, Rat.mk' 131 25, Rat.mk' 36469 277207⟩, "B maior"),
   (⟨Rat.mk' 1277 22255, Rat.mk' 131 25, Rat.mk' 1920851 19811401⟩, "B menor")]

theorem keyEntries_W0 : keyEntries 2 (fun p t => chromaW p (0 + t)) = entE0 := by
  with_unfolding_all rfl

theorem keyEntries_W1 : keyEntries 2 (fun p t => chromaW p (1 + t)) = entW1 := by
  with_unfolding_all rfl

theorem detect_W0 :
    detect_key_krumhansl_schmuckler_enhanced 2 (fun p t => chromaW p (0 + t)) =
      some ("C maior", ⟨Rat.mk' 1147 1393, Rat.mk' 11 1, Rat.mk' 36469 277207⟩) := by
  have h := detect_key_eq_of_strict_max 2 (fun p t => chromaW p (0 + t))
    ((⟨Rat.mk' 1147 1393, Rat.mk' 11 1, Rat.mk' 36469 277207⟩ : PCorr), "C maior")
    (by rw [keyEntries_W0, entE0]; exact List.mem_cons_self _ _)
    (by
      rw [keyEntries_W0]
      intro x hx hne
      rw [entE0] at hx
      fin_cases hx
      · exact absurd rfl hne
      all_goals with_unfolding_all rfl)
  exact h

theorem detect_W1 :
    detect_key_krumhansl_schmuckler_enhanced 2 (fun p t => chromaW p (1 + t)) =
      some ("F# maior", ⟨Rat.mk' 2671 6965, Rat.mk' 131 25, Rat.mk' 36469 277207⟩) := by
  have h := detect_key_eq_of_strict_max 2 (fun p t => chromaW p (1 + t))
    ((⟨Rat.mk' 2671 6965, Rat.mk' 131 25, Rat.mk' 36469 277207⟩ : PCorr), "F# maior")
    (by
      rw [keyEntries_W1, entW1]
      repeat
        first
        | exact List.mem_cons_self _ _
        | apply List.mem_cons_of_mem)
    (by
      rw [keyEntries_W1]
      intro x hx hne
      rw [entW1] at hx
      fin_cases hx
      all_goals
        first
        | exact absurd rfl hne
        | with_unfolding_all rfl)
  exact h

/-- The two segments the run on `chromaW` produces. -/
def segsW : List Segment :=
  [{ start_time := 0, end_time := 3, tonalidade := "C maior",
     confianca := ⟨Rat.mk' 1147 1393, Rat.mk' 11 1, Rat.mk' 36469 277207⟩,
     acordes := [], estabilidade := 1 },
   { start_time := 3/2, end_time := 9/2, tonalidade := "F# maior",
     confianca := ⟨Rat.mk' 2671 6965, Rat.mk' 131 25, Rat.mk' 36469 277207⟩,
     acordes := [], estabilidade := 23/24 }]

/-- The single key-change event of that run. -/
def eventsW : List KeyChangeEvent :=
  [{ time := 3/2, from_key := "C maior", to_key := "F# maior",
     conf_from := ⟨Rat.mk' 1147 1393, Rat.mk' 11 1, Rat.mk' 36469 277207⟩,
     conf_to := ⟨Rat.mk' 2671 6965, Rat.mk' 131 25, Rat.mk' 36469 277207⟩ }]

/-- The concrete segmented run behind the C3 witness: `sr = 2`, `hop = 3`
give 2-frame windows with 1-frame hops over the 3-frame matrix `chromaW`. -/
theorem segRunW :
    analyze_segments_optimized 2 3 5 3 chromaW (fun _ => []) =
      some (segsW, eventsW) := by
  rw [analyze_segments_optimized, if_neg (by decide)]
  show segLoop 2 3 2 5 chromaW (fun _ => []) [0, 1] [] [] none = some (segsW, eventsW)
  simp only [segLoop, detect_W0, detect_W1, Option.some_bind]
  with_unfolding_all rfl

theorem C3_key_change_invariant_witness :
    (analyze_segments_optimized 2 3 5 3 chromaW (fun _ => []) =
      some (segsW, eventsW)) ∧
    (eventsW = eventsSpec segsW ∧
     (∀ s ∈ segsW, s.confianca.valid) ∧
     (∀ ev ∈ eventsW, ev.from_key ≠ ev.to_key ∧
       ((key_change_threshold : ℚ) : ℝ) < |ev.conf_to.val - ev.conf_from.val|)) :=
  ⟨segRunW, C3_key_change_invariant 2 3 5 3 chromaW (fun _ => []) segsW eventsW segRunW⟩

/-- Witness for C10 at the real pipeline constants: `sr = 22050`,
`hop = 512` give a 129-frame window, and a 3-frame matrix yields the empty
result. -/
theorem C10_short_input_witness :
    (3 * 22050 / 512 / 2 ≠ 0) ∧ (3 < 3 * 22050 / 512) ∧
    analyze_segments_optimized 22050 512 5 3 zeroChroma (fun _ => []) =
      some ([], []) :=
  ⟨by decide, by decide,
    (C10_short_input 22050 512 5 3 zeroChroma (fun _ => []) (by decide)).2 (by decide)⟩

/-! ### C5 and C9: `detect_chord_in_window_enhanced` -/

/-- The possible returns of `detect_chord_in_window_enhanced`: `noChord` is
the early `(None, 0.0)` for a non-positive input sum; `nonePair` models the
oddly parenthesised final `return` when no combo ever updated the best
score (the tuple `(None, (None, 0.0))` — shown unreachable in C9);
`found name score` is the normal return. -/
inductive ChordRet where
  | noChord
  | nonePair
  | found (name : String) (score : PCorr)
deriving DecidableEq

/-- Pointwise weighting by `correlation_weights`. -/
def wmul (u : PCVec) : PCVec := fun p => u p * correlation_weights p

/-- `calculate_weighted_correlation(c1, c2)`: the Pearson correlation of
the two weighted vectors, with a NaN result replaced by the float 0.0. -/
def calculate_weighted_correlation (u v : PCVec) : PCorr :=
  if (pcorr (wmul u) (wmul v)).isNaN then PCorr.ofRat 0
  else pcorr (wmul u) (wmul v)

/-- `np.roll(template, root)` followed by the guarded sum-normalisation. -/
def prepTemplate (r : Fin 12) (t : PCVec) : PCVec :=
  if 0 < vsum (rollv t r) then (fun p => rollv t r p / vsum (rollv t r))
  else rollv t r

/-- The `(root, (chord_type, template))` enumeration of the nested loops,
in source order: ascending root, templates in dict insertion order. -/
def chordCombos : List (Fin 12 × String × PCVec) :=
  (List.finRange 12).flatMap (fun r => chord_templates.map (fun ct => (r, ct)))

/-- The label `f"{note}{chord_type if chord_type != 'major' else ''}"`. -/
def chordName (r : Fin 12) (q : String) : String :=
  note_names r ++ (if q = "major" then "" else q)

/-- The weighted correlation a combo scores against the normalised input. -/
def corrOf (xn : PCVec) (e : Fin 12 × String × PCVec) : PCorr :=
  calculate_weighted_correlation xn (prepTemplate e.1 e.2.2)

/-- One iteration of the best-score loop. -/
def chordStep (xn : PCVec) (best : Option String × PCorr)
    (e : Fin 12 × String × PCVec) : Option String × PCorr :=
  if ¬ (corrOf xn e).isNaN ∧ best.2.ltB (corrOf xn e) then
    (some (chordName e.1 e.2.1), corrOf xn e)
  else best

/-- `detect_chord_in_window_enhanced(chroma_vector)`. -/
def detect_chord_in_window_enhanced (x : PCVec) : ChordRet :=
  if 0 < vsum x then
    match chordCombos.foldl (chordStep (fun p => x p / vsum x))
        (none, PCorr.ofRat (-1)) with
    | (some name, score) => ChordRet.found name score
    | (none, _) => ChordRet.nonePair
  else ChordRet.noChord

theorem calculate_weighted_correlation_valid (u v : PCVec) :
    (calculate_weighted_correlation u v).valid := by
  rw [calculate_weighted_correlation]
  by_cases h : (pcorr (wmul u) (wmul v)).isNaN
  · rw [if_pos h]
    exact PCorr.ofRat_valid 0
  · rw [if_neg h]
    exact pcorr_valid_of_not_nan h

theorem corrOf_valid (xn : PCVec) (e : Fin 12 × String × PCVec) :
    (corrOf xn e).valid := calculate_weighted_correlation_valid _ _

/-- The NaN replacement makes every scored correlation non-NaN, so the
NaN test of the loop never filters anything. -/
theorem corrOf_not_nan (xn : PCVec) (e : Fin 12 × String × PCVec) :
    ¬ (corrOf xn e).isNaN := by
  rw [corrOf, calculate_weighted_correlation]
  by_cases h : (pcorr (wmul xn) (wmul (prepTemplate e.1 e.2.2))).isNaN
  · rw [if_pos h]
    intro hc
    rcases hc with hc | hc <;> norm_num [PCorr.ofRat] at hc
  · rw [if_neg h]
    exact h

/-- The running best only grows, stays valid, and ends at least as large
as every scored correlation. -/
theorem chordFold_ge (xn : PCVec) : ∀ (l : List (Fin 12 × String × PCVec))
    (b : Option String × PCorr), b.2.valid →
    ((l.foldl (chordStep xn) b).2.valid ∧
     b.2.val ≤ (l.foldl (chordStep xn) b).2.val ∧
     ∀ e ∈ l, (corrOf xn e).val ≤ (l.foldl (chordStep xn) b).2.val)
  | [], b, hb => ⟨hb, le_refl _, fun e he => absurd he (List.not_mem_nil e)⟩
  | e :: l, b, hb => by
      rw [List.foldl_cons]
      have hc : (corrOf xn e).valid := corrOf_valid xn e
      by_cases hlt : b.2.ltB (corrOf xn e) = true
      · have hstep : chordStep xn b e = (some (chordName e.1 e.2.1), corrOf xn e) := by
          rw [chordStep, if_pos ⟨corrOf_not_nan xn e, hlt⟩]
        rw [hstep]
        obtain ⟨h1, h2, h3⟩ := chordFold_ge xn l (some (chordName e.1 e.2.1), corrOf xn e) hc
        refine ⟨h1, ?_, ?_⟩
        · exact le_trans ((PCorr.ltB_iff hb hc).mp hlt).le h2
        · intro e2 he2
          rcases List.mem_cons.mp he2 with he2 | he2
          · subst he2
            exact h2
          · exact h3 e2 he2
      · have hstep : chordStep xn b e = b := by
          rw [chordStep, if_neg]
          intro hcond
          exact hlt hcond.2
        rw [hstep]
        obtain ⟨h1, h2, h3⟩ := chordFold_ge xn l b hb
        refine ⟨h1, h2, ?_⟩
        intro e2 he2
        rcases List.mem_cons.mp he2 with he2 | he2
        · subst he2
          have hle : (corrOf xn e2).val ≤ b.2.val := by
            by_contra hgt
            push_neg at hgt
            exact hlt ((PCorr.ltB_iff hb hc).mpr hgt)
          exact le_trans hle h2
        · exact h3 e2 he2

/-- Once the best label is set it never reverts to `None`. -/
theorem chordFold_some (xn : PCVec) : ∀ (l : List (Fin 12 × String × PCVec))
    (b : Option String × PCorr) (name : String), b.1 = some name →
    ∃ name2, (l.foldl (chordStep xn) b).1 = some name2
  | [], b, name, hb => ⟨name, hb⟩
  | e :: l, b, name, hb => by
      rw [List.foldl_cons, chordStep]
      by_cases hcond : ¬ (corrOf xn e).isNaN ∧ b.2.ltB (corrOf xn e) = true
      · rw [if_pos hcond]
        exact chordFold_some xn l (some (chordName e.1 e.2.1), corrOf xn e)
          (chordName e.1 e.2.1) rfl
      · rw [if_neg hcond]
        exact chordFold_some xn l b name hb

/-- If the loop ends with no label, no combo ever beat the initial score. -/
theorem chordFold_none (xn : PCVec) : ∀ (l : List (Fin 12 × String × PCVec))
    (b : Option String × PCorr), b.2.valid →
    (l.foldl (chordStep xn) b).1 = none →
    ∀ e ∈ l, (corrOf xn e).val ≤ b.2.val
  | [], _, _, _, e, he => absurd he (List.not_mem_nil e)
  | e :: l, b, hb, hnone, e2, he2 => by
      rw [List.foldl_cons] at hnone
      by_cases hcond : ¬ (corrOf xn e).isNaN ∧ b.2.ltB (corrOf xn e) = true
      · exfalso
        have hstep : chordStep xn b e = (some (chordName e.1 e.2.1), corrOf xn e) := by
          rw [chordStep, if_pos hcond]
        rw [hstep] at hnone
        obtain ⟨n2, hn2⟩ := chordFold_some xn l
          (some (chordName e.1 e.2.1), corrOf xn e) (chordName e.1 e.2.1) rfl
        rw [hn2] at hnone
        cases hnone
      · have hstep : chordStep xn b e = b := by rw [chordStep, if_neg hcond]
        rw [hstep] at hnone
        rcases List.mem_cons.mp he2 with he2 | he2
        · subst he2
          by_contra hgt
          push_neg at hgt
          exact hcond ⟨corrOf_not_nan xn e2,
            (PCorr.ltB_iff hb (corrOf_valid xn e2)).mpr hgt⟩
        · exact chordFold_none xn l b hb hnone e2 he2

/-- A best entry that already dominates the remaining combos never moves. -/
theorem chordFold_const (xn : PCVec) : ∀ (l : List (Fin 12 × String × PCVec))
    (b : Option String × PCorr), b.2.valid →
    (∀ e ∈ l, (corrOf xn e).val ≤ b.2.val) →
    l.foldl (chordStep xn) b = b
  | [], _, _, _ => rfl
  | e :: l, b, hb, hdom => by
      rw [List.foldl_cons]
      have hstep : chordStep xn b e = b := by
        rw [chordStep, if_neg]
        intro hcond
        have h1 := (PCorr.ltB_iff hb (corrOf_valid xn e)).mp hcond.2
        exact absurd (hdom e (List.mem_cons_self e l)) (not_le.mpr h1)
      rw [hstep]
      exact chordFold_const xn l b hb (fun e2 he2 => hdom e2 (List.mem_cons_of_mem e he2))

/-! The C9 certificate: a positive integer combination of the twelve
weighted, rotated major templates is a constant vector, so its scaled
covariance against anything vanishes — hence some major root always scores
a non-negative covariance. -/

/-- The C-rooted major template (head of `chord_templates`). -/
def tplMaj : PCVec := tpl [1, 0, 0, 0, 8/10, 0, 0, 9/10, 0, 0, 0, 0]

/-- The certificate weights. -/
def mCert : Fin 12 → ℚ := fun i => match i with
  | 0 => 42203426 | 1 => 141176663 | 2 => 155063387 | 3 => 155554322
  | 4 => 193848791 | 5 => 203896664 | 6 => 282830114 | 7 => 195936737
  | 8 => 165816068 | 9 => 145279718 | 10 => 145684559 | 11 => 116740796

theorem scov_eq_sum (u t : PCVec) :
    scov u t = ∑ p, u p * (12 * t p - vsum t) := by
  have h2 : (∑ p, u p * (12 * t p - vsum t)) =
      12 * (∑ p, u p * t p) - (∑ p, u p) * vsum t := by
    rw [Finset.mul_sum, Finset.sum_mul, ← Finset.sum_sub_distrib]
    apply Finset.sum_congr rfl
    intro p _
    ring
  rw [h2]
  rfl

theorem cert_pointwise : ∀ p : Fin 12,
    (∑ i, mCert i * (12 * wmul (rollv tplMaj i) p -
      vsum (wmul (rollv tplMaj i)))) = 0 := by
  intro p
  fin_cases p <;> with_unfolding_all rfl

theorem cert_scov (u : PCVec) :
    ∑ i, mCert i * scov u (wmul (rollv tplMaj i)) = 0 := by
  have h1 : ∀ i : Fin 12, mCert i * scov u (wmul (rollv tplMaj i)) =
      ∑ p, u p * (mCert i * (12 * wmul (rollv tplMaj i) p -
        vsum (wmul (rollv tplMaj i)))) := by
    intro i
    rw [scov_eq_sum, Finset.mul_sum]
    apply Finset.sum_congr rfl
    intro p _
    ring
  rw [Finset.sum_congr rfl (fun i _ => h1 i), Finset.sum_comm]
  apply Finset.sum_eq_zero
  intro p _
  rw [← Finset.mul_sum, cert_pointwise p, mul_zero]

theorem exists_nonneg_root (u : PCVec) :
    ∃ i : Fin 12, 0 ≤ scov u (wmul (rollv tplMaj i)) := by
  by_contra h
  push_neg at h
  have hm : ∀ i : Fin 12, 0 < mCert i := by
    intro i
    fin_cases i <;> norm_num [mCert]
  have hlt : ∑ i, mCert i * scov u (wmul (rollv tplMaj i)) <
      ∑ (_ : Fin 12), (0:ℚ) := by
    apply Finset.sum_lt_sum_of_nonempty Finset.univ_nonempty
    intro i _
    exact mul_neg_of_pos_of_neg (hm i) (h i)
  rw [Finset.sum_const_zero, cert_scov] at hlt
  exact lt_irrefl 0 hlt

theorem scov_div (u v : PCVec) (c : ℚ) :
    scov u (fun p => v p / c) = scov u v / c := by
  have h2 : (∑ p, u p * (v p / c)) = (∑ p, u p * v p) / c := by
    rw [Finset.sum_div]
    apply Finset.sum_congr rfl
    intro p _
    ring
  have h3 : (∑ p : Fin 12, (v p / c)) = (∑ p, v p) / c := by
    rw [Finset.sum_div]
  unfold scov dot vsum
  rw [h2, h3]
  ring

theorem vsum_tplMaj : vsum tplMaj = 27/10 := by with_unfolding_all rfl

theorem wmul_div (v : PCVec) (c : ℚ) :
    wmul (fun p => v p / c) = fun p => wmul v p / c := by
  funext p
  simp only [wmul]
  ring

/-- Some major-rooted combo always scores a non-negative correlation value
(0 exactly when the correlation degenerated to NaN and was replaced). -/
theorem exists_chord_combo_nonneg (xn : PCVec) :
    ∃ e ∈ chordCombos, 0 ≤ (corrOf xn e).val := by
  obtain ⟨i, hi⟩ := exists_nonneg_root (wmul xn)
  refine ⟨(i, ("major", tplMaj)), ?_, ?_⟩
  · rw [chordCombos, List.mem_flatMap]
    exact ⟨i, List.mem_finRange i,
      List.mem_map.mpr ⟨("major", tplMaj), List.mem_cons_self _ _, rfl⟩⟩
  · rw [corrOf, calculate_weighted_correlation]
    by_cases h : (pcorr (wmul xn) (wmul (prepTemplate i tplMaj))).isNaN
    · rw [if_pos h, PCorr.ofRat_val]
      norm_num
    · rw [if_neg h]
      rw [PCorr.val_nonneg_iff (pcorr_valid_of_not_nan h)]
      have hvs : vsum (rollv tplMaj i) = 27/10 := by
        rw [vsum_rollv, vsum_tplMaj]
      have hpt : prepTemplate i tplMaj =
          fun p => rollv tplMaj i p / vsum (rollv tplMaj i) := by
        rw [prepTemplate, if_pos]
        rw [hvs]
        norm_num
      show (0:ℚ) ≤ scov (wmul xn) (wmul (prepTemplate i tplMaj))
      rw [hpt, wmul_div, scov_div]
      apply div_nonneg hi
      rw [hvs]
      norm_num

/-- C9: `detect_chord_in_window_enhanced` returns the no-chord sentinel
exactly when the 12-bin input sums to `≤ 0`; for every input with a
positive sum it returns some chord name with a valid score of non-negative
correlation value — even when correlations degenerate, because NaN results
are replaced by 0.0, which exceeds the initial best score of −1. -/
theorem C9_no_chord_iff_nonpositive_sum (x : PCVec) :
    (detect_chord_in_window_enhanced x = ChordRet.noChord ↔ vsum x ≤ 0) ∧
    (0 < vsum x → ∃ name c, detect_chord_in_window_enhanced x =
      ChordRet.found name c ∧ c.valid ∧ 0 ≤ c.val) := by
  have hmain : 0 < vsum x → ∃ name c, detect_chord_in_window_enhanced x =
      ChordRet.found name c ∧ c.valid ∧ 0 ≤ c.val := by
    intro hpos
    obtain ⟨e0, he0, he0n⟩ :=
      exists_chord_combo_nonneg (fun p => x p / vsum x)
    have hinit : (PCorr.ofRat (-1)).valid := PCorr.ofRat_valid _
    obtain ⟨hfv, hfge, hfall⟩ := chordFold_ge (fun p => x p / vsum x)
      chordCombos (none, PCorr.ofRat (-1)) hinit
    rcases hres : chordCombos.foldl (chordStep (fun p => x p / vsum x))
        (none, PCorr.ofRat (-1)) with ⟨ob, sc⟩
    rcases ob with _ | name
    · exfalso
      have hall := chordFold_none (fun p => x p / vsum x) chordCombos
        (none, PCorr.ofRat (-1)) hinit (by rw [hres])
      have h1 := hall e0 he0
      rw [PCorr.ofRat_val, show ((-1 : ℚ) : ℝ) = -1 by norm_num] at h1
      have : (0:ℝ) ≤ -1 := le_trans he0n h1
      norm_num at this
    · refine ⟨name, sc, ?_, ?_, ?_⟩
      · rw [detect_chord_in_window_enhanced, if_pos hpos, hres]
      · have := hfv
        rw [hres] at this
        exact this
      · have h2 := hfall e0 he0
        rw [hres] at h2
        exact le_trans he0n h2
  constructor
  · constructor
    · intro h
      by_contra hc
      push_neg at hc
      obtain ⟨name, c, hf, -, -⟩ := hmain hc
      rw [h] at hf
      cases hf
    · intro h
      rw [detect_chord_in_window_enhanced, if_neg (not_lt.mpr h)]
  · exact hmain

/-! The C5 development: the exact C-major template input. -/

/-- The 179 combos after the head `(0, ("major", tplMaj))`. -/
def combosTail : List (Fin 12 × String × PCVec) :=
  [((0 : Fin 12), ("minor", tpl [1, 0, 0, 8/10, 0, 0, 0, 9/10, 0, 0, 0, 0])),
   ((0 : Fin 12), ("dim", tpl [1, 0, 0, 8/10, 0, 0, 7/10, 0, 0, 0, 0, 0])),
   ((0 : Fin 12), ("aug", tpl [1, 0, 0, 0, 8/10, 0, 0, 0, 7/10, 0, 0, 0])),
   ((0 : Fin 12), ("sus2", tpl [1, 0, 7/10, 0, 0, 0, 0, 9/10, 0, 0, 0, 0])),
   ((0 : Fin 12), ("sus4", tpl [1, 0, 0, 0, 0, 7/10, 0, 9/10, 0, 0, 0, 0])),
   ((0 : Fin 12), ("maj7", tpl [1, 0, 0, 0, 8/10, 0, 0, 9/10, 0, 0, 0, 7/10])),
   ((0 : Fin 12), ("min7", tpl [1, 0, 0, 8/10, 0, 0, 0, 9/10, 0, 0, 6/10, 0])),
   ((0 : Fin 12), ("dom7", tpl [1, 0, 0, 0, 8/10, 0, 0, 9/10, 0, 0, 7/10, 0])),
   ((0 : Fin 12), ("dim7", tpl [1, 0, 0, 8/10, 0, 0, 7/10, 0, 0, 6/10, 0, 0])),
   ((0 : Fin 12), ("maj9", tpl [1, 0, 6/10, 0, 8/10, 0, 0, 9/10, 0, 0, 0, 7/10])),
   ((0 : Fin 12), ("min9", tpl [1, 0, 6/10, 8/10, 0, 0, 0, 9/10, 0, 0, 6/10, 0])),
   ((0 : Fin 12), ("add9", tpl [1, 0, 5/10, 0, 8/10, 0, 0, 9/10, 0, 0, 0, 0])),
   ((0 : Fin 12), ("min6", tpl [1, 0, 0, 8/10, 0, 0, 0, 9/10, 0, 6/10, 0, 0])),
   ((0 : Fin 12), ("maj6", tpl [1, 0, 0, 0, 8/10, 0, 0, 9/10, 0, 6/10, 0, 0])),
   ((1 : Fin 12), ("major", tpl [1, 0, 0, 0, 8/10, 0, 0, 9/10, 0, 0, 0, 0])),
   ((1 : Fin 12), ("minor", tpl [1, 0, 0, 8/10, 0, 0, 0, 9/10, 0, 0, 0, 0])),
   ((1 : Fin 12), ("dim", tpl [1, 0, 0, 8/10, 0, 0, 7/10, 0, 0, 0, 0, 0])),
   ((1 : Fin 12), ("aug", tpl [1, 0, 0, 0, 8/10, 0, 0, 0, 7/10, 0, 0, 0])),
   ((1 : Fin 12), ("sus2", tpl [1, 0, 7/10, 0, 0, 0, 0, 9/10, 0, 0, 0, 0])),
   ((1 : Fin 12), ("sus4", tpl [1, 0, 0, 0, 0, 7/10, 0, 9/10, 0, 0, 0, 0])),
   ((1 : Fin 12), ("maj7", tpl [1, 0, 0, 0, 8/10, 0, 0, 9/10, 0, 0, 0, 7/10])),
   ((1 : Fin 12), ("min7", tpl [1, 0, 0, 8/10, 0, 0, 0, 9/10, 0, 0, 6/10, 0])),
   ((1 : Fin 12), ("dom7", tpl [1, 0, 0, 0, 8/10, 0, 0, 9/10, 0, 0, 7/10, 0])),
   ((1 : Fin 12), ("dim7", tpl [1, 0, 0, 8/10, 0, 0, 7/10, 0, 0, 6/10, 0, 0])),
   ((1 : Fin 12), ("maj9", tpl [1, 0, 6/10, 0, 8/10, 0, 0, 9/10, 0, 0, 0, 7/10])),
   ((1 : Fin 12), ("min9", tpl [1, 0, 6/10, 8/10, 0, 0, 0, 9/10, 0, 0, 6/10, 0])),
   ((1 : Fin 12), ("add9", tpl [1, 0, 5/10, 0, 8/10, 0, 0, 9/10, 0, 0, 0, 0])),
   ((1 : Fin 12), ("min6", tpl [1, 0, 0, 8/10, 0, 0, 0, 9/10, 0, 6/10, 0, 0])),
   ((1 : Fin 12), ("maj6", tpl [1, 0, 0, 0, 8/10, 0, 0, 9/10, 0, 6/10, 0, 0])),
   ((2 : Fin 12), ("major", tpl [1, 0, 0, 0, 8/10, 0, 0, 9/10, 0, 0, 0, 0])),
   ((2 : Fin 12), ("minor", tpl [1, 0, 0, 8/10, 0, 0, 0, 9/10, 0, 0, 0, 0])),
   ((2 : Fin 12), ("dim", tpl [1, 0, 0, 8/10, 0, 0, 7/10, 0, 0, 0, 0, 0])),
   ((2 : Fin 12), ("aug", tpl [1, 0, 0, 0, 8/10, 0, 0, 0, 7/10, 0, 0, 0])),
   ((2 : Fin 12), ("sus2", tpl [1, 0, 7/10, 0, 0, 0, 0, 9/10, 0, 0, 0, 0])),
   ((2 : Fin 12), ("sus4", tpl [1, 0, 0, 0, 0, 7/10, 0, 9/10, 0, 0, 0, 0])),
   ((2 : Fin 12), ("maj7", tpl [1, 0, 0, 0, 8/10, 0, 0, 9/10, 0, 0, 0, 7/10])),
   ((2 : Fin 12), ("min7", tpl [1, 0, 0, 8/10, 0, 0, 0, 9/10, 0, 0, 6/10, 0])),
   ((2 : Fin 12), ("dom7", tpl [1, 0, 0, 0, 8/10, 0, 0, 9/10, 0, 0, 7/10, 0])),
   ((2 : Fin 12), ("dim7", tpl [1, 0, 0, 8/10, 0, 0, 7/10, 0, 0, 6/10, 0, 0])),
   ((2 : Fin 12), ("maj9", tpl [1, 0, 6/10, 0, 8/10, 0, 0, 9/10, 0, 0, 0, 7/10])),
   ((2 : Fin 12), ("min9", tpl [1, 0, 6/10, 8/10, 0, 0, 0, 9/10, 0, 0, 6/10, 0])),
   ((2 : Fin 12), ("add9", tpl [1, 0, 5/10, 0, 8/10, 0, 0, 9/10, 0, 0, 0, 0])),
   ((2 : Fin 12), ("min6", tpl [1, 0, 0, 8/10, 0, 0, 0, 9/10, 0, 6/10, 0, 0])),
   ((2 : Fin 12), ("maj6", tpl [1, 0, 0, 0, 8/10, 0, 0, 9/10, 0, 6/10, 0, 0])),
   ((3 : Fin 12), ("major", tpl [1, 0, 0, 0, 8/10, 0, 0, 9/10, 0, 0, 0, 0])),
   ((3 : Fin 12), ("minor", tpl [1, 0, 0, 8/10, 0, 0, 0, 9/10, 0, 0, 0, 0])),
   ((3 : Fin 12), ("dim", tpl [1, 0, 0, 8/10, 0, 0, 7/10, 0, 0, 0, 0, 0])),
   ((3 : Fin 12), ("aug", tpl [1, 0, 0, 0, 8/10, 0, 0, 0, 7/10, 0, 0, 0])),
   ((3 : Fin 12), ("sus2", tpl [1, 0, 7/10, 0, 0, 0, 0, 9/10, 0, 0, 0, 0])),
   ((3 : Fin 12), ("sus4", tpl [1, 0, 0, 0, 0, 7/10, 0, 9/10, 0, 0, 0, 0])),
   ((3 : Fin 12), ("maj7", tpl [1, 0, 0, 0, 8/10, 0, 0, 9/10, 0, 0, 0, 7/10])),
   ((3 : Fin 12), ("min7", tpl [1, 0, 0, 8/10, 0, 0, 0, 9/10, 0, 0, 6/10, 0])),
   ((3 : Fin 12), ("dom7", tpl [1, 0, 0, 0, 8/10, 0, 0, 9/10, 0, 0, 7/10, 0])),
   ((3 : Fin 12), ("dim7", tpl [1, 0, 0, 8/10, 0, 0, 7/10, 0, 0, 6/10, 0, 0])),
   ((3 : Fin 12), ("maj9", tpl [1, 0, 6/10, 0, 8/10, 0, 0, 9/10, 0, 0, 0, 7/10])),
   ((3 : Fin 12), ("min9", tpl [1, 0, 6/10, 8/10, 0, 0, 0, 9/10, 0, 0, 6/10, 0])),
   ((3 : Fin 12), ("add9", tpl [1, 0, 5/10, 0, 8/10, 0, 0, 9/10, 0, 0, 0, 0])),
   ((3 : Fin 12), ("min6", tpl [1, 0, 0, 8/10, 0, 0, 0, 9/10, 0, 6/10, 0, 0])),
   ((3 : Fin 12), ("maj6", tpl [1, 0, 0, 0, 8/10, 0, 0, 9/10, 0, 6/10, 0, 0])),
   ((4 : Fin 12), ("major", tpl [1, 0, 0, 0, 8/10, 0, 0, 9/10, 0, 0, 0, 0])),
   ((4 : Fin 12), ("minor", tpl [1, 0, 0, 8/10, 0, 0, 0, 9/10, 0, 0, 0, 0])),
   ((4 : Fin 12), ("dim", tpl [1, 0, 0, 8/10, 0, 0, 7/10, 0, 0, 0, 0, 0])),
   ((4 : Fin 12), ("aug", tpl [1, 0, 0, 0, 8/10, 0, 0, 0, 7/10, 0, 0, 0])),
   ((4 : Fin 12), ("sus2", tpl [1, 0, 7/10, 0, 0, 0, 0, 9/10, 0, 0, 0, 0])),
   ((4 : Fin 12), ("sus4", tpl [1, 0, 0, 0, 0, 7/10, 0, 9/10, 0, 0, 0, 0])),
   ((4 : Fin 12), ("maj7", tpl [1, 0, 0, 0, 8/10, 0, 0, 9/10, 0, 0, 0, 7/10])),
   ((4 : Fin 12), ("min7", tpl [1, 0, 0, 8/10, 0, 0, 0, 9/10, 0, 0, 6/10, 0])),
   ((4 : Fin 12), ("dom7", tpl [1, 0, 0, 0, 8/10, 0, 0, 9/10, 0, 0, 7/10, 0])),
   ((4 : Fin 12), ("dim7", tpl [1, 0, 0, 8/10, 0, 0, 7/10, 0, 0, 6/10, 0, 0])),
   ((4 : Fin 12), ("maj9", tpl [1, 0, 6/10, 0, 8/10, 0, 0, 9/10, 0, 0, 0, 7/10])),
   ((4 : Fin 12), ("min9", tpl [1, 0, 6/10, 8/10, 0, 0, 0, 9/10, 0, 0, 6/10, 0])),
   ((4 : Fin 12), ("add9", tpl [1, 0, 5/10, 0, 8/10, 0, 0, 9/10, 0, 0, 0, 0])),
   ((4 : Fin 12), ("min6", tpl [1, 0, 0, 8/10, 0, 0, 0, 9/10, 0, 6/10, 0, 0])),
   ((4 : Fin 12), ("maj6", tpl [1, 0, 0, 0, 8/10, 0, 0, 9/10, 0, 6/10, 0, 0])),
   ((5 : Fin 12), ("major", tpl [1, 0, 0, 0, 8/10, 0, 0, 9/10, 0, 0, 0, 0])),
   ((5 : Fin 12), ("minor", tpl [1, 0, 0, 8/10, 0, 0, 0, 9/10, 0, 0, 0, 0])),
   ((5 : Fin 12), ("dim", tpl [1, 0, 0, 8/10, 0, 0, 7/10, 0, 0, 0, 0, 0])),
   ((5 : Fin 12), ("aug", tpl [1, 0, 0, 0, 8/10, 0, 0, 0, 7/10, 0, 0, 0])),
   ((5 : Fin 12), ("sus2", tpl [1, 0, 7/10, 0, 0, 0, 0, 9/10, 0, 0, 0, 0])),
   ((5 : Fin 12), ("sus4", tpl [1, 0, 0, 0, 0, 7/10, 0, 9/10, 0, 0, 0, 0])),
   ((5 : Fin 12), ("maj7", tpl [1, 0, 0, 0, 8/10, 0, 0, 9/10, 0, 0, 0, 7/10])),
   ((5 : Fin 12), ("min7", tpl [1, 0, 0, 8/10, 0, 0, 0, 9/10, 0, 0, 6/10, 0])),
   ((5 : Fin 12), ("dom7", tpl [1, 0, 0, 0, 8/10, 0, 0, 9/10, 0, 0, 7/10, 0])),
   ((5 : Fin 12), ("dim7", tpl [1, 0, 0, 8/10, 0, 0, 7/10, 0, 0, 6/10, 0, 0])),
   ((5 : Fin 12), ("maj9", tpl [1, 0, 6/10, 0, 8/10, 0, 0, 9/10, 0, 0, 0, 7/10])),
   ((5 : Fin 12), ("min9", tpl [1, 0, 6/10, 8/10, 0, 0, 0, 9/10, 0, 0, 6/10, 0])),
   ((5 : Fin 12), ("add9", tpl [1, 0, 5/10, 0, 8/10, 0, 0, 9/10, 0, 0, 0, 0])),
   ((5 : Fin 12), ("min6", tpl [1, 0, 0, 8/10, 0, 0, 0, 9/10, 0, 6/10, 0, 0])),
   ((5 : Fin 12), ("maj6", tpl [1, 0, 0, 0, 8/10, 0, 0, 9/10, 0, 6/10, 0, 0])),
   ((6 : Fin 12), ("major", tpl [1, 0, 0, 0, 8/10, 0, 0, 9/10, 0, 0, 0, 0])),
   ((6 : Fin 12), ("minor", tpl [1, 0, 0, 8/10, 0, 0, 0, 9/10, 0, 0, 0, 0])),
   ((6 : Fin 12), ("dim", tpl [1, 0, 0, 8/10, 0, 0, 7/10, 0, 0, 0, 0, 0])),
   ((6 : Fin 12), ("aug", tpl [1, 0, 0, 0, 8/10, 0, 0, 0, 7/10, 0, 0, 0])),
   ((6 : Fin 12), ("sus2", tpl [1, 0, 7/10, 0, 0, 0, 0, 9/10, 0, 0, 0, 0])),
   ((6 : Fin 12), ("sus4", tpl [1, 0, 0, 0, 0, 7/10, 0, 9/10, 0, 0, 0, 0])),
   ((6 : Fin 12), ("maj7", tpl [1, 0, 0, 0, 8/10, 0, 0, 9/10, 0, 0, 0, 7/10])),
   ((6 : Fin 12), ("min7", tpl [1, 0, 0, 8/10, 0, 0, 0, 9/10, 0, 0, 6/10, 0])),
   ((6 : Fin 12), ("dom7", tpl [1, 0, 0, 0, 8/10, 0, 0, 9/10, 0, 0, 7/10, 0])),
   ((6 : Fin 12), ("dim7", tpl [1, 0, 0, 8/10, 0, 0, 7/10, 0, 0, 6/10, 0, 0])),
   ((6 : Fin 12), ("maj9", tpl [1, 0, 6/10, 0, 8/10, 0, 0, 9/10, 0, 0, 0, 7/10])),
   ((6 : Fin 12), ("min9", tpl [1, 0, 6/10, 8/10, 0, 0, 0, 9/10, 0, 0, 6/10, 0])),
   ((6 : Fin 12), ("add9", tpl [1, 0, 5/10, 0, 8/10, 0, 0, 9/10, 0, 0, 0, 0])),
   ((6 : Fin 12), ("min6", tpl [1, 0, 0, 8/10, 0, 0, 0, 9/10, 0, 6/10, 0, 0])),
   ((6 : Fin 12), ("maj6", tpl [1, 0, 0, 0, 8/10, 0, 0, 9/10, 0, 6/10, 0, 0])),
   ((7 : Fin 12), ("major", tpl [1, 0, 0, 0, 8/10, 0, 0, 9/10, 0, 0, 0, 0])),
   ((7 : Fin 12), ("minor", tpl [1, 0, 0, 8/10, 0, 0, 0, 9/10, 0, 0, 0, 0])),
   ((7 : Fin 12), ("dim", tpl [1, 0, 0, 8/10, 0, 0, 7/10, 0, 0, 0, 0, 0])),
   ((7 : Fin 12), ("aug", tpl [1, 0, 0, 0, 8/10, 0, 0, 0, 7/10, 0, 0, 0])),
   ((7 : Fin 12), ("sus2", tpl [1, 0, 7/10, 0, 0, 0, 0, 9/10, 0, 0, 0, 0])),
   ((7 : Fin 12), ("sus4", tpl [1, 0, 0, 0, 0, 7/10, 0, 9/10, 0, 0, 0, 0])),
   ((7 : Fin 12), ("maj7", tpl [1, 0, 0, 0, 8/10, 0, 0, 9/10, 0, 0, 0, 7/10])),
   ((7 : Fin 12), ("min7", tpl [1, 0, 0, 8/10, 0, 0, 0, 9/10, 0, 0, 6/10, 0])),
   ((7 : Fin 12), ("dom7", tpl [1, 0, 0, 0, 8/10, 0, 0, 9/10, 0, 0, 7/10, 0])),
   ((7 : Fin 12), ("dim7", tpl [1, 0, 0, 8/10, 0, 0, 7/10, 0, 0, 6/10, 0, 0])),
   ((7 : Fin 12), ("maj9", tpl [1, 0, 6/10, 0, 8/10, 0, 0, 9/10, 0, 0, 0, 7/10])),
   ((7 : Fin 12), ("min9", tpl [1, 0, 6/10, 8/10, 0, 0, 0, 9/10, 0, 0, 6/10, 0])),
   ((7 : Fin 12), ("add9", tpl [1, 0, 5/10, 0, 8/10, 0, 0, 9/10, 0, 0, 0, 0])),
   ((7 : Fin 12), ("min6", tpl [1, 0, 0, 8/10, 0, 0, 0, 9/10, 0, 6/10, 0, 0])),
   ((7 : Fin 12), ("maj6", tpl [1, 0, 0, 0, 8/10, 0, 0, 9/10, 0, 6/10, 0, 0])),
   ((8 : Fin 12), ("major", tpl [1, 0, 0, 0, 8/10, 0, 0, 9/10, 0, 0, 0, 0])),
   ((8 : Fin 12), ("minor", tpl [1, 0, 0, 8/10, 0, 0, 0, 9/10, 0, 0, 0, 0])),
   ((8 : Fin 12), ("dim", tpl [1, 0, 0, 8/10, 0, 0, 7/10, 0, 0, 0, 0, 0])),
   ((8 : Fin 12), ("aug", tpl [1, 0, 0, 0, 8/10, 0, 0, 0, 7/10, 0, 0, 0])),
   ((8 : Fin 12), ("sus2", tpl [1, 0, 7/10, 0, 0, 0, 0, 9/10, 0, 0, 0, 0])),
   ((8 : Fin 12), ("sus4", tpl [1, 0, 0, 0, 0, 7/10, 0, 9/10, 0, 0, 0, 0])),
   ((8 : Fin 12), ("maj7", tpl [1, 0, 0, 0, 8/10, 0, 0, 9/10, 0, 0, 0, 7/10])),
   ((8 : Fin 12), ("min7", tpl [1, 0, 0, 8/10, 0, 0, 0, 9/10, 0, 0, 6/10, 0])),
   ((8 : Fin 12), ("dom7", tpl [1, 0, 0, 0, 8/10, 0, 0, 9/10, 0, 0, 7/10, 0])),
   ((8 : Fin 12), ("dim7", tpl [1, 0, 0, 8/10, 0, 0, 7/10, 0, 0, 6/10, 0, 0])),
   ((8 : Fin 12), ("maj9", tpl [1, 0, 6/10, 0, 8/10, 0, 0, 9/10, 0, 0, 0, 7/10])),
   ((8 : Fin 12), ("min9", tpl [1, 0, 6/10, 8/10, 0, 0, 0, 9/10, 0, 0, 6/10, 0])),
   ((8 : Fin 12), ("add9", tpl [1, 0, 5/10, 0, 8/10, 0, 0, 9/10, 0, 0, 0, 0])),
   ((8 : Fin 12), ("min6", tpl [1, 0, 0, 8/10, 0, 0, 0, 9/10, 0, 6/10, 0, 0])),
   ((8 : Fin 12), ("maj6", tpl [1, 0, 0, 0, 8/10, 0, 0, 9/10, 0, 6/10, 0, 0])),
   ((9 : Fin 12), ("major", tpl [1, 0, 0, 0, 8/10, 0, 0, 9/10, 0, 0, 0, 0])),
   ((9 : Fin 12), ("minor", tpl [1, 0, 0, 8/10, 0, 0, 0, 9/10, 0, 0, 0, 0])),
   ((9 : Fin 12), ("dim", tpl [1, 0, 0, 8/10, 0, 0, 7/10, 0, 0, 0, 0, 0])),
   ((9 : Fin 12), ("aug", tpl [1, 0, 0, 0, 8/10, 0, 0, 0, 7/10, 0, 0, 0])),
   ((9 : Fin 12), ("sus2", tpl [1, 0, 7/10, 0, 0, 0, 0, 9/10, 0, 0, 0, 0])),
   ((9 : Fin 12), ("sus4", tpl [1, 0, 0, 0, 0, 7/10, 0, 9/10, 0, 0, 0, 0])),
   ((9 : Fin 12), ("maj7", tpl [1, 0, 0, 0, 8/10, 0, 0, 9/10, 0, 0, 0, 7/10])),
   ((9 : Fin 12), ("min7", tpl [1, 0, 0, 8/10, 0, 0, 0, 9/10, 0, 0, 6/10, 0])),
   ((9 : Fin 12), ("dom7", tpl [1, 0, 0, 0, 8/10, 0, 0, 9/10, 0, 0, 7/10, 0])),
   ((9 : Fin 12), ("dim7", tpl [1, 0, 0, 8/10, 0, 0, 7/10, 0, 0, 6/10, 0, 0])),
   ((9 : Fin 12), ("maj9", tpl [1, 0, 6/10, 0, 8/10, 0, 0, 9/10, 0, 0, 0, 7/10])),
   ((9 : Fin 12), ("min9", tpl [1, 0, 6/10, 8/10, 0, 0, 0, 9/10, 0, 0, 6/10, 0])),
   ((9 : Fin 12), ("add9", tpl [1, 0, 5/10, 0, 8/10, 0, 0, 9/10, 0, 0, 0, 0])),
   ((9 : Fin 12), ("min6", tpl [1, 0, 0, 8/10, 0, 0, 0, 9/10, 0, 6/10, 0, 0])),
   ((9 : Fin 12), ("maj6", tpl [1, 0, 0, 0, 8/10, 0, 0, 9/10, 0, 6/10, 0, 0])),
   ((10 : Fin 12), ("major", tpl [1, 0, 0, 0, 8/10, 0, 0, 9/10, 0, 0, 0, 0])),
   ((10 : Fin 12), ("minor", tpl [1, 0, 0, 8/10, 0, 0, 0, 9/10, 0, 0, 0, 0])),
   ((10 : Fin 12), ("dim", tpl [1, 0, 0, 8/10, 0, 0, 7/10, 0, 0, 0, 0, 0])),
   ((10 : Fin 12), ("aug", tpl [1, 0, 0, 0, 8/10, 0, 0, 0, 7/10, 0, 0, 0])),
   ((10 : Fin 12), ("sus2", tpl [1, 0, 7/10, 0, 0, 0, 0, 9/10, 0, 0, 0, 0])),
   ((10 : Fin 12), ("sus4", tpl [1, 0, 0, 0, 0, 7/10, 0, 9/10, 0, 0, 0, 0])),
   ((10 : Fin 12), ("maj7", tpl [1, 0, 0, 0, 8/10, 0, 0, 9/10, 0, 0, 0, 7/10])),
   ((10 : Fin 12), ("min7", tpl [1, 0, 0, 8/10, 0, 0, 0, 9/10, 0, 0, 6/10, 0])),
   ((10 : Fin 12), ("dom7", tpl [1, 0, 0, 0, 8/10, 0, 0, 9/10, 0, 0, 7/10, 0])),
   ((10 : Fin 12), ("dim7", tpl [1, 0, 0, 8/10, 0, 0, 7/10, 0, 0, 6/10, 0, 0])),
   ((10 : Fin 12), ("maj9", tpl [1, 0, 6/10, 0, 8/10, 0, 0, 9/10, 0, 0, 0, 7/10])),
   ((10 : Fin 12), ("min9", tpl [1, 0, 6/10, 8/10, 0, 0, 0, 9/10, 0, 0, 6/10, 0])),
   ((10 : Fin 12), ("add9", tpl [1, 0, 5/10, 0, 8/10, 0, 0, 9/10, 0, 0, 0, 0])),
   ((10 : Fin 12), ("min6", tpl [1, 0, 0, 8/10, 0, 0, 0, 9/10, 0, 6/10, 0, 0])),
   ((10 : Fin 12), ("maj6", tpl [1, 0, 0, 0, 8/10, 0, 0, 9/10, 0, 6/10, 0, 0])),
   ((11 : Fin 12), ("major", tpl [1, 0, 0, 0, 8/10, 0, 0, 9/10, 0, 0, 0, 0])),
   ((11 : Fin 12), ("minor", tpl [1, 0, 0, 8/10, 0, 0, 0, 9/10, 0, 0, 0, 0])),
   ((11 : Fin 12), ("dim", tpl [1, 0, 0, 8/10, 0, 0, 7/10, 0, 0, 0, 0, 0])),
   ((11 : Fin 12), ("aug", tpl [1, 0, 0, 0, 8/10, 0, 0, 0, 7/10, 0, 0, 0])),
   ((11 : Fin 12), ("sus2", tpl [1, 0, 7/10, 0, 0, 0, 0, 9/10, 0, 0, 0, 0])),
   ((11 : Fin 12), ("sus4", tpl [1, 0, 0, 0, 0, 7/10, 0, 9/10, 0, 0, 0, 0])),
   ((11 : Fin 12), ("maj7", tpl [1, 0, 0, 0, 8/10, 0, 0, 9/10, 0, 0, 0, 7/10])),
   ((11 : Fin 12), ("min7", tpl [1, 0, 0, 8/10, 0, 0, 0, 9/10, 0, 0, 6/10, 0])),
   ((11 : Fin 12), ("dom7", tpl [1, 0, 0, 0, 8/10, 0, 0, 9/10, 0, 0, 7/10, 0])),
   ((11 : Fin 12), ("dim7", tpl [1, 0, 0, 8/10, 0, 0, 7/10, 0, 0, 6/10, 0, 0])),
   ((11 : Fin 12), ("maj9", tpl [1, 0, 6/10, 0, 8/10, 0, 0, 9/10, 0, 0, 0, 7/10])),
   ((11 : Fin 12), ("min9", tpl [1, 0, 6/10, 8/10, 0, 0, 0, 9/10, 0, 0, 6/10, 0])),
   ((11 : Fin 12), ("add9", tpl [1, 0, 5/10, 0, 8/10, 0, 0, 9/10, 0, 0, 0, 0])),
   ((11 : Fin 12), ("min6", tpl [1, 0, 0, 8/10, 0, 0, 0, 9/10, 0, 6/10, 0, 0])),
   ((11 : Fin 12), ("maj6", tpl [1, 0, 0, 0, 8/10, 0, 0, 9/10, 0, 6/10, 0, 0]))]

/-- The C5 input normalised by its sum (2.7). -/
def xnC : PCVec := fun p => tplMaj p / vsum tplMaj

/-- The correlation record the C-major combo scores against `xnC`:
covariance and both variances coincide, so the denoted value is exactly 1. -/
def cC : PCorr := ⟨Rat.mk' 737 243, Rat.mk' 737 243, Rat.mk' 737 243⟩

theorem chordCombos_split :
    chordCombos = ((0 : Fin 12), ("major", tplMaj)) :: combosTail := by
  with_unfolding_all rfl

theorem corrOf_cmajor : corrOf xnC ((0 : Fin 12), ("major", tplMaj)) = cC := by
  with_unfolding_all rfl

theorem combosTail_lt :
    combosTail.all (fun e => (corrOf xnC e).ltB cC) = true := by
  with_unfolding_all rfl

theorem cC_valid : cC.valid := ⟨by decide, by decide⟩

theorem cC_val_one : cC.val = 1 := PCorr.val_self (by decide)

/-- C5: on the exact C-rooted major template vector the detector returns
the bare label "C" whose correlation record denotes exactly 1, and every
one of the 179 other (root, quality) combos scores a strictly smaller
correlation value. -/
theorem C5_c_template_top :
    detect_chord_in_window_enhanced tplMaj = ChordRet.found "C" cC ∧
    cC.val = 1 ∧
    (∀ e ∈ chordCombos, e ≠ ((0 : Fin 12), ("major", tplMaj)) →
      (corrOf xnC e).val < cC.val) := by
  have hvpos : (0:ℚ) < vsum tplMaj := by
    rw [vsum_tplMaj]
    norm_num
  have hdomB : ∀ e ∈ combosTail, (corrOf xnC e).ltB cC = true := fun e he =>
    List.all_eq_true.mp combosTail_lt e he
  have hdomV : ∀ e ∈ combosTail, (corrOf xnC e).val < cC.val := fun e he =>
    (PCorr.ltB_iff (corrOf_valid xnC e) cC_valid).mp (hdomB e he)
  have hltinit : (PCorr.ofRat (-1)).ltB
      (corrOf xnC ((0 : Fin 12), ("major", tplMaj))) = true := by
    rw [corrOf_cmajor]
    with_unfolding_all rfl
  have hstep1 : chordStep xnC (none, PCorr.ofRat (-1))
      ((0 : Fin 12), ("major", tplMaj)) = (some "C", cC) := by
    rw [chordStep, if_pos ⟨corrOf_not_nan xnC _, hltinit⟩, corrOf_cmajor]
    with_unfolding_all rfl
  have hfold : chordCombos.foldl (chordStep xnC) (none, PCorr.ofRat (-1)) =
      (some "C", cC) := by
    rw [chordCombos_split, List.foldl_cons, hstep1]
    exact chordFold_const xnC combosTail (some "C", cC) cC_valid
      (fun e he => (hdomV e he).le)
  refine ⟨?_, cC_val_one, ?_⟩
  · rw [detect_chord_in_window_enhanced, if_pos hvpos]
    have hfold2 : chordCombos.foldl (chordStep (fun p => tplMaj p / vsum tplMaj))
        (none, PCorr.ofRat (-1)) = (some "C", cC) := hfold
    rw [hfold2]
  · intro e he hne
    rw [chordCombos_split] at he
    rcases List.mem_cons.mp he with he | he
    · exact absurd he hne
    · exact hdomV e he

end MusicalAI
